import Mathlib

/-!
# kelivo gateway: access gate, CORS policy and the request-proxy engine

A shallow embedding of `gateway/main.go`.  The handlers of the gateway are pure
functions over an explicit response-writer state; the calls they make into Go's
standard library (`strings`, `net/textproto`, `crypto/subtle`, `encoding/base64`)
are modelled next to them, and the `net/url` parser, the case-folding table of package
unicode and the upstream round trip are parameters of the handlers.
-/

set_option autoImplicit false

namespace Gateway

/-! ## Go strings -/

/-- A Go `byte` (`uint8`). -/
abbrev Byte := Fin 256

/-- Conversion of an integer to `byte`, which keeps the low eight bits. -/
def byte (n : Nat) : Byte := ⟨n % 256, Nat.mod_lt n (by decide)⟩

/-- A Go string is an immutable sequence of bytes. -/
abbrev Str := List Byte

/-- The bytes of an ASCII string literal. -/
def lit (s : String) : Str := s.toList.map (fun c => byte c.toNat)

/-- The table `asciiSpace` of package strings: tab, line feed, vertical tab, form feed,
carriage return and space. -/
def asciiSpace (c : Byte) : Bool :=
  c.val == 9 || c.val == 10 || c.val == 11 || c.val == 12 || c.val == 13 || c.val == 32

/-- UTF-8 encodings of the code points above U+007F for which `unicode.IsSpace` holds:
U+0085, U+00A0, U+1680, U+2000 to U+200A, U+2028, U+2029, U+202F, U+205F, U+3000. -/
def unicodeSpaces : List Str :=
  [[0xC2, 0x85], [0xC2, 0xA0], [0xE1, 0x9A, 0x80],
   [0xE2, 0x80, 0x80], [0xE2, 0x80, 0x81], [0xE2, 0x80, 0x82], [0xE2, 0x80, 0x83],
   [0xE2, 0x80, 0x84], [0xE2, 0x80, 0x85], [0xE2, 0x80, 0x86], [0xE2, 0x80, 0x87],
   [0xE2, 0x80, 0x88], [0xE2, 0x80, 0x89], [0xE2, 0x80, 0x8A],
   [0xE2, 0x80, 0xA8], [0xE2, 0x80, 0xA9], [0xE2, 0x80, 0xAF], [0xE2, 0x81, 0x9F],
   [0xE3, 0x80, 0x80]]

/-- Width in bytes of the white-space rune the string starts with, 0 when it starts with
none (a byte that does not begin a valid encoding decodes to `utf8.RuneError`, which is
not white space). -/
def leadingSpace (s : Str) : Nat :=
  match s with
  | [] => 0
  | c :: _ =>
    if asciiSpace c then 1
    else match unicodeSpaces.find? (fun e => e.isPrefixOf s) with
      | some e => e.length
      | none => 0

/-- Width in bytes of the white-space rune the string ends with, 0 when it ends with none. -/
def trailingSpace (s : Str) : Nat :=
  match s.getLast? with
  | none => 0
  | some c =>
    if asciiSpace c then 1
    else match unicodeSpaces.find? (fun e => e.isSuffixOf s) with
      | some e => e.length
      | none => 0

/-- Drops white-space runes from the front, at most `fuel` of them. -/
def trimLeftSpace : Nat → Str → Str
  | 0, s => s
  | fuel + 1, s =>
    if leadingSpace s = 0 then s else trimLeftSpace fuel (s.drop (leadingSpace s))

/-- Drops white-space runes from the back, at most `fuel` of them. -/
def trimRightSpace : Nat → Str → Str
  | 0, s => s
  | fuel + 1, s =>
    if trailingSpace s = 0 then s
    else trimRightSpace fuel (s.take (s.length - trailingSpace s))

/-- Go `strings.TrimSpace`: the string without its leading and trailing white space, as
defined by Unicode.  Every white-space rune is at least one byte wide, so the length of
the string is fuel enough. -/
def TrimSpace (s : Str) : Str :=
  let t := trimLeftSpace s.length s
  trimRightSpace t.length t

/-- Go `strings.HasPrefix`. -/
def HasPrefix (s p : Str) : Bool := p.isPrefixOf s

/-- Go `strings.TrimPrefix`: `s` without the leading `p`, or `s` itself when it does not
start with `p`. -/
def TrimPrefix (s p : Str) : Str :=
  if HasPrefix s p then s.drop p.length else s

/-- Go `strings.TrimRight` for a cutset of one ASCII byte (`trimRightByte`): every
trailing occurrence of the byte is removed. -/
def TrimRightByte (s : Str) (c : Byte) : Str :=
  (s.reverse.dropWhile (fun b => b == c)).reverse

/-- The constant `utf8.RuneError`, U+FFFD. -/
def RuneError : Nat := 0xFFFD

/-- Whether `b` lies in the closed range of continuation bytes `lo..hi`. -/
def inRange (lo hi b : Nat) : Bool := decide (lo ≤ b) && decide (b ≤ hi)

/-- Go `utf8.DecodeRuneInString`: the first rune of the string and its width in bytes;
`(RuneError, 1)` for a byte that does not start a well-formed encoding and
`(RuneError, 0)` for the empty string. -/
def decodeRune (s : Str) : Nat × Nat :=
  match s with
  | [] => (RuneError, 0)
  | c0 :: t =>
    let p0 := c0.val
    if p0 < 0x80 then (p0, 1)
    else if p0 < 0xC2 || 0xF4 < p0 then (RuneError, 1)
    else
      let sz := if p0 < 0xE0 then 2 else if p0 < 0xF0 then 3 else 4
      let lo := if p0 = 0xE0 then 0xA0 else if p0 = 0xF0 then 0x90 else 0x80
      let hi := if p0 = 0xED then 0x9F else if p0 = 0xF4 then 0x8F else 0xBF
      if s.length < sz then (RuneError, 1)
      else match t with
        | [] => (RuneError, 1)
        | c1 :: t1 =>
          let b1 := c1.val
          if !inRange lo hi b1 then (RuneError, 1)
          else if sz = 2 then ((p0 % 0x20) * 0x40 + b1 % 0x40, 2)
          else match t1 with
            | [] => (RuneError, 1)
            | c2 :: t2 =>
              let b2 := c2.val
              if !inRange 0x80 0xBF b2 then (RuneError, 1)
              else if sz = 3 then ((p0 % 0x10) * 0x1000 + (b1 % 0x40) * 0x40 + b2 % 0x40, 3)
              else match t2 with
                | [] => (RuneError, 1)
                | c3 :: _ =>
                  let b3 := c3.val
                  if !inRange 0x80 0xBF b3 then (RuneError, 1)
                  else ((p0 % 0x08) * 0x40000 + (b1 % 0x40) * 0x1000
                          + (b2 % 0x40) * 0x40 + b3 % 0x40, 4)

/-- The runes a `range` loop over the string yields, at most `fuel` of them. -/
def runesFuel : Nat → Str → List Nat
  | 0, _ => []
  | fuel + 1, s =>
    match s with
    | [] => []
    | _ :: _ => (decodeRune s).1 :: runesFuel fuel (s.drop (decodeRune s).2)

/-- The runes of a string; every rune is at least one byte wide. -/
def runes (s : Str) : List Nat := runesFuel s.length s

/-- The table of package unicode that `strings.EqualFold` consults.  The table is not
part of the gateway: the functions below take it as a parameter and the theorems hold for
every table. -/
structure Unicode where
  /-- The function `unicode.SimpleFold`: the next rune of the case-folding orbit of a
  rune, the smallest one after the largest. -/
  SimpleFold : Nat → Nat

/-- The walk of `strings.EqualFold` along the orbit of `sr`, the loop
`for r != sr && r < tr { r = unicode.SimpleFold(r) }`, from `r`.  The runes visited lie
below `tr`, so a walk of more than `tr` steps visits a rune twice and never ends; `tr + 1`
is fuel enough whenever the orbit of `sr` closes (`foldWalk_fuel_enough`), as every orbit
in the table of package unicode does. -/
def foldWalk (U : Unicode) (sr tr : Nat) : Nat → Nat → Nat
  | 0, r => r
  | fuel + 1, r => if r ≠ sr ∧ r < tr then foldWalk U sr tr fuel (U.SimpleFold r) else r

/-- Whether two runes are equal under simple case folding, as `strings.EqualFold`
decides it for the runes `sr ≤ tr`: the runes are equal; or both are ASCII, and then they
are the upper and lower case of one letter; or the walk from `unicode.SimpleFold(sr)`
along the orbit of `sr` stops on `tr`. -/
def foldEq (U : Unicode) (a b : Nat) : Bool :=
  let sr := min a b
  let tr := max a b
  if tr = sr then true
  else if tr < 0x80 then decide (0x41 ≤ sr) && decide (sr ≤ 0x5A) && decide (tr = sr + 0x20)
  else foldWalk U sr tr (tr + 1) (U.SimpleFold sr) == tr

/-- Pairwise comparison of two rune sequences under simple case folding. -/
def foldEqList (U : Unicode) : List Nat → List Nat → Bool
  | [], [] => true
  | a :: as, b :: bs => foldEq U a b && foldEqList U as bs
  | _, _ => false

/-- Go `strings.EqualFold`: whether the two strings, read as UTF-8, are equal under
simple Unicode case folding. -/
def EqualFold (U : Unicode) (s t : Str) : Bool := foldEqList U (runes s) (runes t)

/-! ## net/textproto and net/http headers -/

/-- Go `validHeaderFieldByte`: the bytes of an HTTP token, that is letters, digits and
``!#$%&'*+-.^_`|~``. -/
def validHeaderFieldByte (c : Byte) : Bool :=
  (decide (0x30 ≤ c.val) && decide (c.val ≤ 0x39)) ||
  (decide (0x61 ≤ c.val) && decide (c.val ≤ 0x7A)) ||
  (decide (0x41 ≤ c.val) && decide (c.val ≤ 0x5A)) ||
  [0x21, 0x23, 0x24, 0x25, 0x26, 0x27, 0x2A, 0x2B, 0x2D, 0x2E, 0x5E, 0x5F, 0x60, 0x7C, 0x7E].contains
    c.val

/-- One step of the loop of `canonicalMIMEHeaderKey`: a lower-case letter at the start of
a word goes to upper case (`c -= toLower`), an upper-case letter elsewhere to lower case
(`c += toLower`). -/
def canonicalByte (upper : Bool) (c : Byte) : Byte :=
  if upper && decide (0x61 ≤ c.val) && decide (c.val ≤ 0x7A) then byte (c.val - 0x20)
  else if !upper && decide (0x41 ≤ c.val) && decide (c.val ≤ 0x5A) then byte (c.val + 0x20)
  else c

/-- The loop of `canonicalMIMEHeaderKey`: the first letter and every letter after a
hyphen in upper case, every other letter in lower case.  `upper` tells whether the next
byte starts a word. -/
def canonicalLoop : Bool → Str → Str
  | _, [] => []
  | upper, c :: rest =>
    canonicalByte upper c :: canonicalLoop ((canonicalByte upper c).val == 0x2D) rest

/-- Go `textproto.CanonicalMIMEHeaderKey`: a key that holds a byte outside the token
bytes (a space included) is returned unchanged, any other key in canonical form. -/
def CanonicalMIMEHeaderKey (s : Str) : Str :=
  if s.all validHeaderFieldByte then canonicalLoop true s else s

/-- Go `http.Header`, a `map[string][]string`: absent keys hold the nil slice. -/
abbrev Header := Str → List Str

/-- The empty header map, `make(http.Header)`. -/
def Header.empty : Header := fun _ => []

/-- Go `Header.Get`: the first value under the canonical form of the key, or the empty
string. -/
def Header.Get (h : Header) (key : Str) : Str :=
  match h (CanonicalMIMEHeaderKey key) with
  | [] => []
  | v :: _ => v

/-- Go `Header.Set`: replaces the values under the canonical form of the key. -/
def Header.Set (h : Header) (key value : Str) : Header :=
  Function.update h (CanonicalMIMEHeaderKey key) [value]

/-- Go `Header.Add`: appends a value under the canonical form of the key. -/
def Header.Add (h : Header) (key value : Str) : Header :=
  Function.update h (CanonicalMIMEHeaderKey key) (h (CanonicalMIMEHeaderKey key) ++ [value])

/-! ## crypto/subtle -/

/-- Go `subtle.ConstantTimeByteEq`: `int((uint32(x^y) - 1) >> 31)`, the subtraction
wrapping at 32 bits. -/
def ConstantTimeByteEq (x y : Byte) : Nat :=
  (((x.val ^^^ y.val) % 2 ^ 32 + 2 ^ 32 - 1) % 2 ^ 32) >>> 31

/-- The accumulation loop of `ConstantTimeCompare`: `v |= x[i] ^ y[i]` over the common
indices. -/
def xorAccumulate : Byte → Str → Str → Byte
  | v, a :: x, b :: y => xorAccumulate (byte (v.val ||| (a.val ^^^ b.val))) x y
  | v, _, _ => v

/-- Go `subtle.ConstantTimeCompare`: 1 when the two slices have equal contents, 0
otherwise, and 0 at once when the lengths differ. -/
def ConstantTimeCompare (x y : Str) : Nat :=
  if x.length ≠ y.length then 0
  else ConstantTimeByteEq (xorAccumulate 0 x y) 0

/-! ## encoding/base64 -/

/-- The alphabet of `base64.StdEncoding`. -/
def encodeStd : Str := lit "ABCDEFGHIJKLMNOPQRSTUVWXYZabcdefghijklmnopqrstuvwxyz0123456789+/"

/-- The character of the standard alphabet for a six-bit value. -/
def encodeStdAt (n : Nat) : Byte := encodeStd.getD (n % 64) 0

/-- Go `base64.StdEncoding.EncodeToString`: three bytes give four characters, and a
remainder of one or two bytes is padded with `=`. -/
def base64Encode : Str → Str
  | a :: b :: c :: rest =>
    let v := a.val * 65536 + b.val * 256 + c.val
    encodeStdAt (v / 262144) :: encodeStdAt (v / 4096) :: encodeStdAt (v / 64)
      :: encodeStdAt v :: base64Encode rest
  | [a, b] =>
    let v := a.val * 65536 + b.val * 256
    [encodeStdAt (v / 262144), encodeStdAt (v / 4096), encodeStdAt (v / 64), 0x3D]
  | [a] =>
    let v := a.val * 65536
    [encodeStdAt (v / 262144), encodeStdAt (v / 4096), 0x3D, 0x3D]
  | [] => []

/-- Go `basicAuth` of net/http: the base64 of `username:password`. -/
def basicAuth (username password : Str) : Str :=
  base64Encode (username ++ lit ":" ++ password)

/-- Go `Request.SetBasicAuth`, on the header map of the request. -/
def Header.SetBasicAuth (h : Header) (username password : Str) : Header :=
  h.Set (lit "Authorization") (lit "Basic " ++ basicAuth username password)

/-! ## net/url and the requests -/

/-- The fields of Go `url.URL` the gateway reads or writes. -/
structure URL where
  Scheme : Str
  Host : Str
  Path : Str
  RawQuery : Str
deriving DecidableEq

/-- The operations of package net/url the gateway calls.  The package is not part of the
gateway; the handlers take it as a parameter and the theorems hold for every
implementation of it. -/
structure NetURL where
  /-- The call `url.Parse`, `none` standing for a parse error. -/
  Parse : Str → Option URL
  /-- The method `URL.String`. -/
  String : URL → Str
  /-- The method `URL.Query` as a function of the raw query: the values of each key. -/
  Query : Str → Str → List Str

/-- Go `url.Values.Get`: the first value of the key, or the empty string. -/
def ValuesGet (vs : Str → List Str) (key : Str) : Str :=
  match vs key with
  | [] => []
  | v :: _ => v

/-- The inbound `http.Request`, as far as the gateway reads it. -/
structure Request where
  Method : Str
  URL : URL
  Header : Header

/-- The gateway configuration, struct `config` (lines 21 to 32). -/
structure config where
  ListenAddr : Str
  UpstreamBaseURL : Option URL
  UpstreamAPIKey : Str
  AccessCodes : List Str
  AllowedOrigins : List Str
  UploadDir : Str
  MaxUploadBytes : Int

/-! ## The access gate -/

/-- Function `bearerToken` of the gateway (main.go, lines 276 to 286). -/
def bearerToken (U : Unicode) (authHeader : Str) : Str :=
  let v := TrimSpace authHeader
  if v = [] then []
  else
    let bearer := lit "Bearer "
    if decide (v.length ≤ bearer.length) || !EqualFold U (v.take bearer.length) bearer then []
    else TrimSpace (v.drop bearer.length)

/-- The loop of `checkAccess` over the configured codes (lines 236 to 241). -/
def checkAccess.anyAllowed (code : Str) : List Str → Bool
  | [] => false
  | allowed :: rest =>
    if ConstantTimeCompare code allowed = 1 then true else checkAccess.anyAllowed code rest

/-- Function `checkAccess` of the gateway (lines 219 to 242). -/
def checkAccess (U : Unicode) (L : NetURL) (cfg : config) (r : Request) : Bool :=
  if cfg.AccessCodes.length = 0 then true
  else
    let code := TrimSpace (r.Header.Get (lit "X-Access-Code"))
    let code := if code = [] then bearerToken U (r.Header.Get (lit "Authorization")) else code
    let code :=
      if code = [] then TrimSpace (ValuesGet (L.Query r.URL.RawQuery) (lit "access_code"))
      else code
    if code = [] then false
    else checkAccess.anyAllowed code cfg.AccessCodes

/-! ## The response writer, the client and the flushing writer -/

/-- What the connection to the client observes: a write of a chunk, or a flush. -/
inductive Event where
  | write (p : Str)
  | flush
deriving DecidableEq

/-- The state of an `http.ResponseWriter`: the header map, the status line once it is
written, the events sent on the connection so far, the result `(n, err)` the connection
gives to a write (as a function of what was sent before and of the chunk), and whether
the writer implements `http.Flusher`. -/
structure ResponseWriter where
  header : Header
  status : Option Nat
  out : List Event
  conn : List Event → Str → Int × Option Str
  flusher : Bool

/-- Go `ResponseWriter.WriteHeader`: the first call fixes the status, later calls are
ignored. -/
def ResponseWriter.WriteHeader (w : ResponseWriter) (code : Nat) : ResponseWriter :=
  match w.status with
  | some _ => w
  | none => { w with status := some code }

/-- Go `ResponseWriter.Write`: sends the chunk (after an implicit status 200 when none was
written) and returns what the connection returns. -/
def ResponseWriter.Write (w : ResponseWriter) (p : Str) : ResponseWriter × (Int × Option Str) :=
  let w1 := w.WriteHeader 200
  ({ w1 with out := w1.out ++ [Event.write p] }, w1.conn w1.out p)

/-- Go `Flusher.Flush` of the response writer. -/
def ResponseWriter.Flush (w : ResponseWriter) : ResponseWriter :=
  let w1 := w.WriteHeader 200
  { w1 with out := w1.out ++ [Event.flush] }

/-- Go `http.Error`: a plain-text reply with the given status and the message on one
line.  (Releases of Go from 1.23 on also delete a `Content-Length` header set before;
the handlers of the gateway set none.) -/
def httpError (w : ResponseWriter) (error : Str) (code : Nat) : ResponseWriter :=
  let h := (w.header.Set (lit "Content-Type") (lit "text/plain; charset=utf-8")).Set
    (lit "X-Content-Type-Options") (lit "nosniff")
  let w1 := ResponseWriter.WriteHeader { w with header := h } code
  (w1.Write (error ++ lit "\n")).1

/-- An `io.Writer` over a state `σ`: `Write` gives the new state and `(n, err)`. -/
structure Writer (σ : Type) where
  Write : σ → Str → σ × (Int × Option Str)

/-- An `http.Flusher` over a state `σ`. -/
structure Flusher (σ : Type) where
  Flush : σ → σ

/-- The struct `flushWriter` of the gateway (lines 206 to 209); `fl` may be nil. -/
structure flushWriter (σ : Type) where
  w : Writer σ
  fl : Option (Flusher σ)

/-- Method `Write` of `flushWriter` (lines 211 to 217). -/
def flushWriter.Write {σ : Type} (fw : flushWriter σ) (s : σ) (p : Str) : σ × (Int × Option Str) :=
  let (s1, n, err) := fw.w.Write s p
  let s2 := match fw.fl with
    | some fl => fl.Flush s1
    | none => s1
  (s2, n, err)

/-- The response writer as an `io.Writer`. -/
def ResponseWriter.asWriter : Writer ResponseWriter := ⟨ResponseWriter.Write⟩

/-- The type assertion `w.(http.Flusher)`: nil when the writer is no flusher. -/
def ResponseWriter.asFlusher (w : ResponseWriter) : Option (Flusher ResponseWriter) :=
  if w.flusher then some ⟨ResponseWriter.Flush⟩ else none

/-- Consecutive calls of `Write` on a flushing writer, one per chunk, with the result of
each call. -/
def writeChunks {σ : Type} (fw : flushWriter σ) : σ → List Str → σ × List (Int × Option Str)
  | s, [] => (s, [])
  | s, p :: rest =>
    let (s1, res) := fw.Write s p
    let (s2, ress) := writeChunks fw s1 rest
    (s2, res :: ress)

/-- Go `io.Copy` into a writer that has no `ReadFrom`, over the chunks the reads of the
source return: the copy stops at the first write that fails or is short. -/
def ioCopy {σ : Type} (write : σ → Str → σ × (Int × Option Str)) : σ → List Str → σ × Option Str
  | s, [] => (s, none)
  | s, p :: rest =>
    let (s1, n, err) := write s p
    if n < 0 ∨ (p.length : Int) < n then (s1, some (err.getD (lit "invalid write result")))
    else if err.isSome then (s1, err)
    else if (p.length : Int) ≠ n then (s1, some (lit "short write"))
    else ioCopy write s1 rest

/-- The outbound request handed to `http.Client.Do`: method, URL and header map (the body
is the inbound body stream, passed through). -/
structure ClientRequest where
  Method : Str
  URL : URL
  Header : Header

/-- The upstream `http.Response`: status, the header map in the order the `range` loop
visits it, and the body as the chunks its reads return. -/
structure Response where
  StatusCode : Nat
  Header : List (Str × List Str)
  Body : List Str

/-- The round trip `client.Do`: a response or a transport error text. -/
abbrev Client := ClientRequest → Except Str Response

/-- Index of the last occurrence of a byte, `-1` when there is none
(`strings.LastIndex` for a pattern of one byte). -/
def lastIndexByte (s : Str) (c : Byte) : Int :=
  s.enum.foldl (fun acc ib => if ib.2 = c then (ib.1 : Int) else acc) (-1)

/-- Go `removeEmptyPort` of net/http: strips a trailing colon that is followed by no
port. -/
def removeEmptyPort (host : Str) : Str :=
  if lastIndexByte host 0x3A > lastIndexByte host 0x5D then
    (if (lit ":").isSuffixOf host then host.take (host.length - 1) else host)
  else host

/-- Go `validMethod` of net/http: a non-empty HTTP token. -/
def validMethod (method : Str) : Bool :=
  decide (0 < method.length) && method.all validHeaderFieldByte

/-- Go `http.NewRequestWithContext` (with a non-nil context): fails on an invalid method
and on a URL that does not parse; the new request has an empty header map. -/
def NewRequestWithContext (L : NetURL) (method url : Str) : Option ClientRequest :=
  let method := if method = [] then lit "GET" else method
  if !validMethod method then none
  else match L.Parse url with
    | none => none
    | some u => some { Method := method, URL := { u with Host := removeEmptyPort u.Host },
                       Header := Header.empty }

/-- How far a handler gets before the upstream call: it has replied and returned, or it
has built the outbound request for `client.Do`, or it has panicked. -/
inductive Step where
  | done (w : ResponseWriter)
  | send (w : ResponseWriter) (req : ClientRequest)
  | panic

/-! ## CORS -/

/-- The loop of `isAllowedOrigin` (lines 268 to 273). -/
def isAllowedOrigin.loop (U : Unicode) (origin : Str) : List Str → Bool
  | [] => false
  | a :: rest =>
    if a = lit "*" || EqualFold U a origin then true else isAllowedOrigin.loop U origin rest

/-- Function `isAllowedOrigin` of the gateway (lines 263 to 274). -/
def isAllowedOrigin (U : Unicode) (allowed : List Str) (origin : Str) : Bool :=
  if allowed.length = 0 then false
  else isAllowedOrigin.loop U origin allowed

/-- A handler: the writer after the call, or `none` when the handler panics. -/
abbrev Handler := ResponseWriter → Request → Option ResponseWriter

/-- The header lines `withCORS` sets for an allowed origin (lines 248 to 252). -/
def corsHeaders (h : Header) (origin : Str) : Header :=
  ((((h.Set (lit "Access-Control-Allow-Origin") origin).Set (lit "Vary") (lit "Origin")).Set
    (lit "Access-Control-Allow-Credentials") (lit "true")).Set
    (lit "Access-Control-Allow-Headers")
    (lit "Authorization, Content-Type, X-Access-Code, X-WebDAV-URL, X-WebDAV-Username, X-WebDAV-Password, Depth, Destination, Overwrite")).Set
    (lit "Access-Control-Allow-Methods")
    (lit "GET, POST, PUT, DELETE, PROPFIND, MKCOL, COPY, MOVE, OPTIONS")

/-- Function `withCORS` of the gateway (lines 244 to 261). -/
def withCORS (U : Unicode) (cfg : config) (next : Handler) : Handler := fun w r =>
  let origin := r.Header.Get (lit "Origin")
  let w1 :=
    if origin ≠ [] ∧ isAllowedOrigin U cfg.AllowedOrigins origin = true then
      { w with header := corsHeaders w.header origin }
    else w
  if r.Method = lit "OPTIONS" then some (w1.WriteHeader 204)
  else next w1 r

/-! ## The API proxy -/

/-- Function `copyHeader` of the gateway (lines 304 to 310). -/
def copyHeader (dst src : Header) (keys : List Str) : Header :=
  keys.foldl (fun dst k => if src.Get k ≠ [] then dst.Set k (src.Get k) else dst) dst

/-- The header map `proxyHandler` gives the outbound request (lines 164 to 168): the
pass-through of three inbound headers, then the fixed `Accept-Encoding` and the upstream
credential. -/
def proxyHandler.header (cfg : config) (r : Request) (h : Header) : Header :=
  let h := copyHeader h r.Header [lit "Content-Type", lit "Accept", lit "User-Agent"]
  let h := h.Set (lit "Accept-Encoding") (lit "identity")
  h.Set (lit "Authorization") (lit "Bearer " ++ cfg.UpstreamAPIKey)

/-- The handler of `proxyHandler` up to the call of `client.Do` (lines 141 to 171).  The
dereference of a nil `cfg.UpstreamBaseURL` panics; `main` registers the handler only when
the URL is set. -/
def proxyHandler.request (U : Unicode) (L : NetURL) (cfg : config) (upstreamPath : Str)
    (w : ResponseWriter) (r : Request) : Step :=
  if r.Method ≠ lit "POST" ∧ r.Method ≠ lit "GET" then
    Step.done (httpError w (lit "method not allowed") 405)
  else if !checkAccess U L cfg r then
    Step.done (httpError w (lit "unauthorized") 401)
  else match cfg.UpstreamBaseURL with
    | none => Step.panic
    | some base =>
      let target := { base with Path := base.Path ++ upstreamPath }
      match NewRequestWithContext L r.Method (L.String target) with
      | none => Step.done (httpError w (lit "bad request") 400)
      | some req =>
        Step.send w { req with Header := proxyHandler.header cfg r req.Header,
                               URL := { req.URL with RawQuery := r.URL.RawQuery } }

/-- The copy of the upstream response headers in `proxyHandler` (lines 181 to 189): every
value is added, the values of a key that folds to `Content-Encoding` are skipped. -/
def proxyHandler.copyHeaders (U : Unicode) (h : Header) : List (Str × List Str) → Header
  | [] => h
  | (k, vv) :: rest =>
    if EqualFold U k (lit "Content-Encoding") then proxyHandler.copyHeaders U h rest
    else proxyHandler.copyHeaders U (vv.foldl (fun h v => h.Add k v) h) rest

/-- The handler of `proxyHandler` after a successful `client.Do` (lines 180 to 202). -/
def proxyHandler.relay (U : Unicode) (w : ResponseWriter) (resp : Response) : ResponseWriter :=
  let h := proxyHandler.copyHeaders U w.header resp.Header
  let h := h.Set (lit "Cache-Control") (lit "no-cache")
  let h := h.Set (lit "X-Accel-Buffering") (lit "no")
  let w1 := ResponseWriter.WriteHeader { w with header := h } resp.StatusCode
  let fw : flushWriter ResponseWriter := { w := ResponseWriter.asWriter, fl := w1.asFlusher }
  (ioCopy fw.Write w1 resp.Body).1

/-- Function `proxyHandler` of the gateway (lines 127 to 204). -/
def proxyHandler (U : Unicode) (L : NetURL) (client : Client) (cfg : config) (upstreamPath : Str) : Handler :=
  fun w r =>
    match proxyHandler.request U L cfg upstreamPath w r with
    | Step.done w1 => some w1
    | Step.panic => none
    | Step.send w1 req =>
      match client req with
      | Except.error _ => some (httpError w1 (lit "upstream error") 502)
      | Except.ok resp => some (proxyHandler.relay U w1 resp)

/-! ## The WebDAV proxy -/

/-- The URL string `webdavProxyHandler` builds from the trimmed target base and the
inbound request (lines 551 to 561): the base without trailing slashes, the inbound path
without the mount point (`/` when nothing is left), and the raw query after `?` when
there is one. -/
def webdavProxyHandler.fullURL (targetURL : Str) (r : Request) : Str :=
  let path := TrimPrefix r.URL.Path (lit "/webapi/webdav")
  let path := if path = [] then lit "/" else path
  let fullURL := TrimRightByte targetURL 0x2F ++ path
  if r.URL.RawQuery ≠ [] then fullURL ++ lit "?" ++ r.URL.RawQuery else fullURL

/-- The header map `webdavProxyHandler` gives the outbound request (lines 570 to 582):
the copy loop over five inbound headers, then Basic auth when a user name is given. -/
def webdavProxyHandler.header (r : Request) (h : Header) : Header :=
  let h := [lit "Content-Type", lit "Content-Length", lit "Depth", lit "Destination",
      lit "Overwrite"].foldl
    (fun h k => if r.Header.Get k ≠ [] then h.Set k (r.Header.Get k) else h) h
  let username := r.Header.Get (lit "X-WebDAV-Username")
  let password := r.Header.Get (lit "X-WebDAV-Password")
  if username ≠ [] then h.SetBasicAuth username password else h

/-- The handler of `webdavProxyHandler` up to the call of `client.Do` (lines 521 to 582). -/
def webdavProxyHandler.request (U : Unicode) (L : NetURL) (cfg : config)
    (w : ResponseWriter) (r : Request) : Step :=
  if r.Method = lit "OPTIONS" then Step.done (w.WriteHeader 204)
  else if !checkAccess U L cfg r then
    Step.done (httpError w (lit "unauthorized") 401)
  else
    let targetURL := TrimSpace (r.Header.Get (lit "X-WebDAV-URL"))
    if targetURL = [] then
      Step.done (httpError w (lit "missing X-WebDAV-URL header") 400)
    else match L.Parse targetURL with
      | none => Step.done (httpError w (lit "invalid X-WebDAV-URL") 400)
      | some parsedURL =>
        if parsedURL.Scheme ≠ lit "http" ∧ parsedURL.Scheme ≠ lit "https" then
          Step.done (httpError w (lit "X-WebDAV-URL must be http or https") 400)
        else
          match NewRequestWithContext L r.Method (webdavProxyHandler.fullURL targetURL r) with
          | none => Step.done (httpError w (lit "failed to create request") 500)
          | some proxyReq =>
            Step.send w { proxyReq with Header := webdavProxyHandler.header r proxyReq.Header }

/-- The copy of the upstream response headers in `webdavProxyHandler` (lines 594 to
598): every value of every key is added. -/
def webdavProxyHandler.copyHeaders (h : Header) : List (Str × List Str) → Header
  | [] => h
  | (k, vv) :: rest => webdavProxyHandler.copyHeaders (vv.foldl (fun h v => h.Add k v) h) rest

/-- The handler of `webdavProxyHandler` after a successful `client.Do` (lines 593 to
601); the body copy is shown as one write for each chunk read. -/
def webdavProxyHandler.relay (w : ResponseWriter) (resp : Response) : ResponseWriter :=
  let h := webdavProxyHandler.copyHeaders w.header resp.Header
  let w1 := ResponseWriter.WriteHeader { w with header := h } resp.StatusCode
  (ioCopy ResponseWriter.Write w1 resp.Body).1

/-- Function `webdavProxyHandler` of the gateway (lines 508 to 603). -/
def webdavProxyHandler (U : Unicode) (L : NetURL) (client : Client) (cfg : config) : Handler :=
  fun w r =>
    match webdavProxyHandler.request U L cfg w r with
    | Step.done w1 => some w1
    | Step.panic => none
    | Step.send w1 req =>
      match client req with
      | Except.error e => some (httpError w1 (lit "webdav request failed: " ++ e) 502)
      | Except.ok resp => some (webdavProxyHandler.relay w1 resp)

/-! ## An instance of the unicode table for the examples -/

/-- The function `unicode.SimpleFold` on the runes up to U+00FF and on the runes that
share an orbit with one of them: the two cases of a letter follow each other, and the
orbits of k, s, U+00B5, U+00C5, U+00DF and U+00FF hold U+212A, U+017F, U+039C and U+03BC,
U+212B, U+1E9E and U+0178.  Every other rune is left as it is. -/
def latin1SimpleFold (r : Nat) : Nat :=
  if r = 0x6B then 0x212A else if r = 0x212A then 0x4B
  else if r = 0x73 then 0x17F else if r = 0x17F then 0x53
  else if 0x41 ≤ r ∧ r ≤ 0x5A then r + 0x20
  else if 0x61 ≤ r ∧ r ≤ 0x7A then r - 0x20
  else if r = 0xB5 then 0x39C else if r = 0x39C then 0x3BC else if r = 0x3BC then 0xB5
  else if r = 0xE5 then 0x212B else if r = 0x212B then 0xC5
  else if r = 0xDF then 0x1E9E else if r = 0x1E9E then 0xDF
  else if r = 0xFF then 0x178 else if r = 0x178 then 0xFF
  else if 0xC0 ≤ r ∧ r ≤ 0xDE ∧ r ≠ 0xD7 then r + 0x20
  else if 0xE0 ≤ r ∧ r ≤ 0xFE ∧ r ≠ 0xF7 then r - 0x20
  else r

/-- An instance of the unicode table, used to evaluate the handlers on examples. -/
def Unicode.latin1 : Unicode := { SimpleFold := latin1SimpleFold }

/-! ## An instance of net/url for the examples -/

/-- Go `strings.Cut` for a separator of one byte: the text before the first occurrence
and the text after it, both parts of the result being the whole string and the empty
string when the byte does not occur. -/
def cutByte (s : Str) (c : Byte) : Str × Str :=
  (s.takeWhile (fun b => b != c), (s.dropWhile (fun b => b != c)).drop 1)

/-- The loop of Go `getScheme` of net/url at index `i`, over the rest of the string:
`none` is the error of a missing protocol scheme. -/
def getSchemeLoop (rawURL : Str) : Nat → Str → Option (Str × Str)
  | _, [] => some ([], rawURL)
  | i, c :: rest =>
    if (decide (0x61 ≤ c.val) && decide (c.val ≤ 0x7A)) ||
        (decide (0x41 ≤ c.val) && decide (c.val ≤ 0x5A)) then
      getSchemeLoop rawURL (i + 1) rest
    else if (decide (0x30 ≤ c.val) && decide (c.val ≤ 0x39)) || c.val == 0x2B || c.val == 0x2D
        || c.val == 0x2E then
      (if i = 0 then some ([], rawURL) else getSchemeLoop rawURL (i + 1) rest)
    else if c.val == 0x3A then
      (if i = 0 then none else some (rawURL.take i, rest))
    else some ([], rawURL)

/-- ASCII lower case of a byte. -/
def lowerByte (c : Byte) : Byte :=
  if decide (0x41 ≤ c.val) && decide (c.val ≤ 0x5A) then byte (c.val + 0x20) else c

/-- The splitting steps of `url.Parse`: the fragment is cut off, a control byte is an
error, the scheme is taken by `getScheme` and put in lower case, the query is cut at the
first `?`, and after `//` the authority runs to the next `/`.  User info, ports, host
names and escapes are neither decoded nor validated. -/
def plainParse (rawURL : Str) : Option URL :=
  let u := (cutByte rawURL 0x23).1
  if u.any (fun c => decide (c.val < 0x20) || c.val == 0x7F) then none
  else match getSchemeLoop u 0 u with
    | none => none
    | some (scheme, rest) =>
      let rq := cutByte rest 0x3F
      if (lit "//").isPrefixOf rq.1 then
        let a := rq.1.drop 2
        some { Scheme := scheme.map lowerByte, Host := a.takeWhile (fun b => b != 0x2F),
               Path := a.dropWhile (fun b => b != 0x2F), RawQuery := rq.2 }
      else some { Scheme := scheme.map lowerByte, Host := [], Path := rq.1, RawQuery := rq.2 }

/-- The reassembly of a URL: scheme, `//` and host, path, `?` and query. -/
def plainString (u : URL) : Str :=
  (if u.Scheme = [] then [] else u.Scheme ++ lit ":") ++
  (if u.Host = [] then [] else lit "//" ++ u.Host) ++ u.Path ++
  (if u.RawQuery = [] then [] else lit "?" ++ u.RawQuery)

/-- The pairs of a raw query, split at `&`; at most `fuel` of them. -/
def plainPairs : Nat → Str → List (Str × Str)
  | 0, _ => []
  | fuel + 1, q =>
    if q = [] then []
    else
      let kq := cutByte q 0x26
      if kq.1 = [] then plainPairs fuel kq.2
      else cutByte kq.1 0x3D :: plainPairs fuel kq.2

/-- The values of a key in a raw query, without unescaping. -/
def plainQuery (q key : Str) : List Str :=
  ((plainPairs q.length q).filter (fun kv => kv.1 = key)).map (fun kv => kv.2)

/-- An instance of the net/url operations, used to evaluate the handlers on examples. -/
def NetURL.plain : NetURL := { Parse := plainParse, String := plainString, Query := plainQuery }

/-! ## Example data -/

/-- A header map with the given lines, each added in turn. -/
def Header.ofList (kvs : List (Str × Str)) : Header :=
  kvs.foldl (fun h kv => h.Add kv.1 kv.2) Header.empty

/-- A fresh response writer on a connection that accepts every write. -/
def newWriter : ResponseWriter :=
  { header := Header.empty, status := none, out := [],
    conn := fun _ p => ((p.length : Int), none), flusher := true }

/-- A configuration with an upstream, one access code and one allowed origin. -/
def exampleConfig : config :=
  { ListenAddr := lit ":8080",
    UpstreamBaseURL := some { Scheme := lit "https", Host := lit "api.example.com",
                              Path := lit "/v1", RawQuery := [] },
    UpstreamAPIKey := lit "sk-upstream",
    AccessCodes := [lit "s3cret"],
    AllowedOrigins := [lit "https://Example.com"],
    UploadDir := lit "./uploads",
    MaxUploadBytes := 26214400 }

/-- A chat request that carries the access code in `X-Access-Code` and the given value in
`Authorization`. -/
def chatRequest (authorization : Str) : Request :=
  { Method := lit "POST",
    URL := { Scheme := [], Host := [], Path := lit "/v1/chat/completions", RawQuery := [] },
    Header := Header.ofList
      [(lit "X-Access-Code", lit "s3cret"), (lit "Content-Type", lit "application/json"),
       (lit "Accept-Encoding", lit "gzip"), (lit "Authorization", authorization)] }

/-- The request of the specification example: `PROPFIND /webapi/webdav/foo?x=1` with
target base `http://example.com/dav/`, with the given lines added to the header. -/
def davRequest (extra : List (Str × Str)) : Request :=
  { Method := lit "PROPFIND",
    URL := { Scheme := [], Host := [], Path := lit "/webapi/webdav/foo", RawQuery := lit "x=1" },
    Header := Header.ofList
      ([(lit "X-Access-Code", lit "s3cret"), (lit "X-Webdav-Url", lit "http://example.com/dav/"),
        (lit "Accept-Encoding", lit "gzip"), (lit "Depth", lit "1")] ++ extra) }

/-- The outbound request of `chatRequest`: the upstream URL with the suffix and the
header map `proxyHandler` builds. -/
def chatOutbound (authorization : Str) : ClientRequest :=
  { Method := lit "POST",
    URL := { Scheme := lit "https", Host := lit "api.example.com",
             Path := lit "/v1/chat/completions", RawQuery := [] },
    Header := proxyHandler.header exampleConfig (chatRequest authorization) Header.empty }

/-- The outbound request of `davRequest`: the URL `http://example.com/dav/foo?x=1` and the
header map `webdavProxyHandler` builds. -/
def davOutbound (extra : List (Str × Str)) : ClientRequest :=
  { Method := lit "PROPFIND",
    URL := { Scheme := lit "http", Host := lit "example.com",
             Path := lit "/dav/foo", RawQuery := lit "x=1" },
    Header := webdavProxyHandler.header (davRequest extra) Header.empty }

/-- The user name and password lines of the WebDAV examples. -/
def davLogin : List (Str × Str) :=
  [(lit "X-Webdav-Username", lit "user"), (lit "X-Webdav-Password", lit "pass")]

/-- An upstream response with `Content-Encoding: br` and `Cache-Control: max-age=60`. -/
def encodedResponse : Response :=
  { StatusCode := 200,
    Header := [(lit "Content-Encoding", [lit "br"]), (lit "Cache-Control", [lit "max-age=60"])],
    Body := [lit "data"] }

/-- A request with the given method and path and the single header line
`Origin: https://example.com`. -/
def originRequest (method path : Str) : Request :=
  { Method := method,
    URL := { Scheme := [], Host := [], Path := path, RawQuery := [] },
    Header := Header.ofList [(lit "Origin", lit "https://example.com")] }

/-- The WebDAV example request without any access code. -/
def davRequestNoCode : Request :=
  { Method := lit "PROPFIND",
    URL := { Scheme := [], Host := [], Path := lit "/webapi/webdav/foo", RawQuery := [] },
    Header := Header.ofList [(lit "X-Webdav-Url", lit "http://example.com/dav/")] }

/-- A fresh response writer on a connection whose every write fails. -/
def brokenWriter : ResponseWriter :=
  { newWriter with conn := fun _ _ => (0, some (lit "broken pipe")) }

/-! ## The claims in the words of the specification -/

/-- The first non-empty string of a list, the empty string when there is none. -/
def firstNonEmpty : List Str → Str
  | [] => []
  | s :: rest => if s ≠ [] then s else firstNonEmpty rest

/-- The bearer token of an `Authorization` value as the specification words it: after
trimming, a case-insensitive `Bearer ` at the front is removed and the remainder
trimmed; there is no token without that front. -/
def bearerOf (U : Unicode) (authHeader : Str) : Str :=
  let v := TrimSpace authHeader
  if EqualFold U (v.take 7) (lit "Bearer ") then TrimSpace (v.drop 7) else []

/-- Equality of two bytes up to the case of an ASCII letter. -/
def asciiFoldEq (a b : Byte) : Bool :=
  a == b ||
  (decide (0x41 ≤ a.val) && decide (a.val ≤ 0x5A) && decide (b.val = a.val + 0x20)) ||
  (decide (0x41 ≤ b.val) && decide (b.val ≤ 0x5A) && decide (a.val = b.val + 0x20))

/-- Case-insensitive equality of two ASCII strings: equal length, and byte by byte equal
up to the case of a letter. -/
def equalFoldASCII : Str → Str → Bool
  | [], [] => true
  | a :: s, b :: t => asciiFoldEq a b && equalFoldASCII s t
  | _, _ => false

/-- The code a request supplies: the first non-empty value among the trimmed
`X-Access-Code` header, the bearer token of `Authorization`, and the trimmed
`access_code` query parameter. -/
def suppliedCode (U : Unicode) (L : NetURL) (r : Request) : Str :=
  firstNonEmpty
    [TrimSpace (r.Header.Get (lit "X-Access-Code")),
     bearerOf U (r.Header.Get (lit "Authorization")),
     TrimSpace (ValuesGet (L.Query r.URL.RawQuery) (lit "access_code"))]

/-! ## Checks of the definitions on concrete inputs -/

example : checkAccess Unicode.latin1 NetURL.plain exampleConfig (chatRequest (lit "Bearer x")) = true := by decide
example : proxyHandler.request Unicode.latin1 NetURL.plain exampleConfig (lit "/chat/completions") newWriter
    (chatRequest (lit "Bearer x")) = Step.send newWriter (chatOutbound (lit "Bearer x")) := rfl
example : webdavProxyHandler.request Unicode.latin1 NetURL.plain exampleConfig newWriter (davRequest []) =
    Step.send newWriter (davOutbound []) := rfl
example : TrimSpace (lit "  ab c \t") = lit "ab c" := by decide
example : TrimSpace ([0xC2, 0xA0] ++ lit " x" ++ [0xE3, 0x80, 0x80]) = lit "x" := by decide
example : TrimSpace [0x85, 0x20] = [0x85] := by decide
example : runes [0xE2, 0x84, 0xAA, 0x41, 0xFF] = [0x212A, 0x41, 0xFFFD] := by decide
example : EqualFold Unicode.latin1 (lit "bEaReR ") (lit "Bearer ") = true := by decide
example : EqualFold Unicode.latin1 (lit "Bearer") (lit "Bearer ") = false := by decide
example : EqualFold Unicode.latin1 [0xE2, 0x84, 0xAA] (lit "k") = true := by decide
example : EqualFold Unicode.latin1 [0xC3, 0xA9] [0xC3, 0x89] = true := by decide
example : EqualFold Unicode.latin1 [0xC3, 0xA9] (lit "e") = false := by decide
example : isAllowedOrigin Unicode.latin1 [lit "https://" ++ [0xC3, 0xA9] ++ lit ".com"]
    (lit "https://" ++ [0xC3, 0x89] ++ lit ".com") = true := by decide
example (U : Unicode) : EqualFold U (lit "https://Example.com") (lit "https://example.com") = true :=
  rfl
example : TrimRightByte (lit "http://example.com/dav//") 0x2F = lit "http://example.com/dav" := by
  decide
example : TrimPrefix (lit "/webapi/webdav/foo") (lit "/webapi/webdav") = lit "/foo" := by decide
example : TrimPrefix (lit "/other") (lit "/webapi/webdav") = lit "/other" := by decide
example : CanonicalMIMEHeaderKey (lit "X-WebDAV-URL") = lit "X-Webdav-Url" := by decide
example : CanonicalMIMEHeaderKey (lit "content-type") = lit "Content-Type" := by decide
example : CanonicalMIMEHeaderKey (lit "a b") = lit "a b" := by decide
example : basicAuth (lit "user") (lit "pass") = lit "dXNlcjpwYXNz" := by decide
example : basicAuth (lit "Aladdin") (lit "open sesame") = lit "QWxhZGRpbjpvcGVuIHNlc2FtZQ==" := by decide
example : ConstantTimeCompare (lit "abc") (lit "abc") = 1 := by decide
example : ConstantTimeCompare (lit "abc") (lit "abd") = 0 := by decide
example : bearerToken Unicode.latin1 (lit "  bearer   tok  ") = lit "tok" := by decide
example : plainParse (lit "http://example.com/dav/foo?x=1") =
  some { Scheme := lit "http", Host := lit "example.com", Path := lit "/dav/foo", RawQuery := lit "x=1" } := by decide
example : plainParse (lit "HTTP://example.com/dav/") =
  some { Scheme := lit "http", Host := lit "example.com", Path := lit "/dav/", RawQuery := [] } := by decide
example : plainQuery (lit "a=1&access_code=s3&access_code=x") (lit "access_code") = [lit "s3", lit "x"] := by decide
example : plainString { Scheme := lit "http", Host := lit "example.com", Path := lit "/dav/foo", RawQuery := lit "x=1" } = lit "http://example.com/dav/foo?x=1" := by decide

/-! ## Lemmas on the library models -/

theorem foldWalk_stop (U : Unicode) (sr tr : Nat) (i : Nat) :
    ∀ (r fuel : Nat), ¬ (U.SimpleFold^[i] r ≠ sr ∧ U.SimpleFold^[i] r < tr) → i + 1 ≤ fuel →
      foldWalk U sr tr fuel r = foldWalk U sr tr (i + 1) r := by
  induction i with
  | zero =>
    intro r fuel hstop hf
    obtain ⟨k, rfl⟩ : ∃ k, fuel = k + 1 := ⟨fuel - 1, by omega⟩
    simp only [Function.iterate_zero, id_eq] at hstop
    simp only [foldWalk, if_neg hstop]
  | succ i ih =>
    intro r fuel hstop hf
    obtain ⟨k, rfl⟩ : ∃ k, fuel = k + 1 := ⟨fuel - 1, by omega⟩
    simp only [foldWalk]
    by_cases hc : r ≠ sr ∧ r < tr
    · rw [if_pos hc, if_pos hc]
      exact ih (U.SimpleFold r) k (by rwa [Function.iterate_succ_apply] at hstop) (by omega)
    · rw [if_neg hc, if_neg hc]

theorem foldWalk_stops_early (U : Unicode) (sr tr : Nat)
    (hclosed : ∃ n, U.SimpleFold^[n + 1] sr = sr) :
    ∃ i, i ≤ tr ∧ ¬ (U.SimpleFold^[i] (U.SimpleFold sr) ≠ sr ∧
      U.SimpleFold^[i] (U.SimpleFold sr) < tr) := by
  by_contra hno
  have hall : ∀ i, i ≤ tr → U.SimpleFold^[i + 1] sr ≠ sr ∧ U.SimpleFold^[i + 1] sr < tr := by
    intro i hi
    rw [Function.iterate_succ_apply]
    by_contra hc
    exact hno ⟨i, hi, hc⟩
  obtain ⟨n, hn⟩ := hclosed
  have hmaps : ∀ i ∈ Finset.range (tr + 1), U.SimpleFold^[i + 1] sr ∈ Finset.range tr := by
    intro i hi
    exact Finset.mem_range.mpr (hall i (by simpa [Nat.lt_succ_iff] using hi)).2
  obtain ⟨a, ha, b, hb, hab, heq⟩ := Finset.exists_ne_map_eq_of_card_lt_of_maps_to
    (by simp) hmaps
  have hper : ∀ k, U.SimpleFold^[k * (n + 1)] sr = sr := by
    intro k
    induction k with
    | zero => simp
    | succ k ih => rw [Nat.succ_mul, Function.iterate_add_apply, hn, ih]
  have key : ∀ a b : Nat, a < b → b ≤ tr →
      U.SimpleFold^[a + 1] sr = U.SimpleFold^[b + 1] sr → False := by
    intro a b hlt hb heq
    have h1 : U.SimpleFold^[(a + 1) * n] (U.SimpleFold^[a + 1] sr) = sr := by
      rw [← Function.iterate_add_apply]
      have : (a + 1) * n + (a + 1) = (a + 1) * (n + 1) := by ring
      rw [this]; exact hper _
    have h2 : U.SimpleFold^[(a + 1) * n] (U.SimpleFold^[b + 1] sr) = U.SimpleFold^[b - a] sr := by
      rw [← Function.iterate_add_apply]
      have : (a + 1) * n + (b + 1) = (b - a) + (a + 1) * (n + 1) := by
        have : b + 1 = (b - a) + (a + 1) := by omega
        rw [this]; ring
      rw [this, Function.iterate_add_apply, hper]
    rw [heq, h2] at h1
    have h3 := (hall (b - a - 1) (by omega)).1
    have : b - a - 1 + 1 = b - a := by omega
    rw [this] at h3
    exact h3 h1
  simp only [Finset.mem_range, Nat.lt_succ_iff] at ha hb
  rcases Nat.lt_or_gt_of_ne hab with h | h
  · exact key a b h hb heq
  · exact key b a h ha heq.symm

/-- More fuel than `tr + 1` never changes the result of the walk along an orbit that
closes: the walk of `strings.EqualFold` has ended by then. -/
theorem foldWalk_fuel_enough (U : Unicode) (sr tr : Nat)
    (hclosed : ∃ n, U.SimpleFold^[n + 1] sr = sr) (fuel : Nat) (hf : tr + 1 ≤ fuel) :
    foldWalk U sr tr fuel (U.SimpleFold sr) = foldWalk U sr tr (tr + 1) (U.SimpleFold sr) := by
  obtain ⟨i, hi, hstop⟩ := foldWalk_stops_early U sr tr hclosed
  rw [foldWalk_stop U sr tr i _ fuel hstop (by omega),
    foldWalk_stop U sr tr i _ (tr + 1) hstop (by omega)]
theorem nat_or_eq_zero {x y : Nat} (h : x ||| y = 0) : x = 0 ∧ y = 0 := by
  constructor
  · apply Nat.zero_of_testBit_eq_false
    intro i
    have hi : (x ||| y).testBit i = false := by rw [h]; exact Nat.zero_testBit i
    rw [Nat.testBit_or] at hi
    cases hx : x.testBit i
    · rfl
    · rw [hx] at hi; simp at hi
  · apply Nat.zero_of_testBit_eq_false
    intro i
    have hi : (x ||| y).testBit i = false := by rw [h]; exact Nat.zero_testBit i
    rw [Nat.testBit_or] at hi
    cases hy : y.testBit i
    · rfl
    · rw [hy] at hi; simp at hi

theorem byte_or_xor_eq_zero (v a b : Byte) :
    byte (v.val ||| (a.val ^^^ b.val)) = 0 ↔ v = 0 ∧ a = b := by
  have hv : v.val < 2 ^ 8 := v.isLt
  have ha : a.val < 2 ^ 8 := a.isLt
  have hb : b.val < 2 ^ 8 := b.isLt
  have hlt : v.val ||| (a.val ^^^ b.val) < 256 :=
    Nat.or_lt_two_pow (n := 8) hv (Nat.xor_lt_two_pow ha hb)
  constructor
  · intro h
    have h1 : (v.val ||| (a.val ^^^ b.val)) % 256 = 0 := congrArg Fin.val h
    rw [Nat.mod_eq_of_lt hlt] at h1
    obtain ⟨h2, h3⟩ := nat_or_eq_zero h1
    exact ⟨Fin.ext h2, Fin.ext (Nat.xor_eq_zero.mp h3)⟩
  · rintro ⟨rfl, rfl⟩
    apply Fin.ext
    simp [byte]

theorem xorAccumulate_eq_zero (x : Str) :
    ∀ (v : Byte) (y : Str), x.length = y.length →
      (xorAccumulate v x y = 0 ↔ v = 0 ∧ x = y) := by
  induction x with
  | nil =>
    intro v y h
    cases y with
    | nil => simp [xorAccumulate]
    | cons b y => simp at h
  | cons a x ih =>
    intro v y h
    cases y with
    | nil => simp at h
    | cons b y =>
      simp only [List.length_cons, Nat.add_right_cancel_iff] at h
      simp only [xorAccumulate]
      rw [ih _ _ h, byte_or_xor_eq_zero]
      simp only [List.cons.injEq]
      tauto

theorem ConstantTimeByteEq_zero (v : Byte) : ConstantTimeByteEq v 0 = 1 ↔ v = 0 := by
  have hv : v.val < 256 := v.isLt
  unfold ConstantTimeByteEq
  simp only [Fin.val_zero, Nat.xor_zero, Nat.shiftRight_eq_div_pow]
  constructor
  · intro h
    apply Fin.ext
    simp only [Fin.val_zero]
    omega
  · rintro rfl
    decide

theorem ConstantTimeCompare_eq_one (x y : Str) : ConstantTimeCompare x y = 1 ↔ x = y := by
  unfold ConstantTimeCompare
  by_cases h : x.length = y.length
  · simp only [h, ne_eq, not_true_eq_false, if_false]
    rw [ConstantTimeByteEq_zero, xorAccumulate_eq_zero x 0 y h]
    simp
  · simp only [ne_eq, h, not_false_eq_true, if_true]
    constructor
    · intro h0; simp at h0
    · intro hxy; exact absurd (congrArg List.length hxy) h

theorem anyAllowed_iff (code : Str) (codes : List Str) :
    checkAccess.anyAllowed code codes = true ↔ code ∈ codes := by
  induction codes with
  | nil => simp [checkAccess.anyAllowed]
  | cons c rest ih =>
    simp only [checkAccess.anyAllowed, List.mem_cons]
    by_cases h : ConstantTimeCompare code c = 1
    · have hc : code = c := (ConstantTimeCompare_eq_one code c).mp h
      rw [if_pos h]
      exact ⟨fun _ => Or.inl hc, fun _ => rfl⟩
    · have hne : code ≠ c := fun e => h ((ConstantTimeCompare_eq_one code c).mpr e)
      simp [h, hne, ih]

theorem TrimSpace_nil : TrimSpace [] = [] := by decide

theorem bearerToken_eq_bearerOf (U : Unicode) (authHeader : Str) :
    bearerToken U authHeader = bearerOf U authHeader := by
  unfold bearerToken bearerOf
  have hlen : (lit "Bearer ").length = 7 := by decide
  simp only [hlen]
  by_cases hv : TrimSpace authHeader = []
  · simp only [hv, if_true]
    have : EqualFold U (List.take 7 ([] : Str)) (lit "Bearer ") = false := rfl
    simp [this, TrimSpace_nil]
  · simp only [hv, if_false]
    by_cases hl : (TrimSpace authHeader).length ≤ 7
    · have hd : List.drop 7 (TrimSpace authHeader) = [] := List.drop_eq_nil_of_le hl
      simp [hl, hd, TrimSpace_nil]
    · simp only [hl, decide_False, Bool.false_or]
      cases hE : EqualFold U (List.take 7 (TrimSpace authHeader)) (lit "Bearer ") <;> simp

/-! ## C1: the access gate -/

/-- C1. For every configuration and request, `checkAccess` returns true exactly when the
configured set of access codes is empty, or the supplied code is non-empty and is one of
the configured codes; the supplied code is the first non-empty value among the trimmed
`X-Access-Code` header, the bearer token of `Authorization` and the trimmed `access_code`
query parameter. -/
theorem checkAccess_iff (U : Unicode) (L : NetURL) (cfg : config) (r : Request) :
    checkAccess U L cfg r = true ↔
      cfg.AccessCodes = [] ∨ (suppliedCode U L r ≠ [] ∧ suppliedCode U L r ∈ cfg.AccessCodes) := by
  unfold checkAccess suppliedCode
  rw [bearerToken_eq_bearerOf]
  by_cases h0 : cfg.AccessCodes = []
  · simp [h0]
  · have hlen : cfg.AccessCodes.length ≠ 0 := by
      intro h; exact h0 (List.length_eq_zero.mp h)
    simp only [hlen, if_false, h0, false_or]
    by_cases h1 : TrimSpace (r.Header.Get (lit "X-Access-Code")) = []
    · by_cases h2 : bearerOf U (r.Header.Get (lit "Authorization")) = []
      · by_cases h3 : TrimSpace (ValuesGet (L.Query r.URL.RawQuery) (lit "access_code")) = []
        · simp [firstNonEmpty, h1, h2, h3]
        · simp [firstNonEmpty, h1, h2, h3, anyAllowed_iff]
      · simp [firstNonEmpty, h1, h2, anyAllowed_iff]
    · simp [firstNonEmpty, h1, anyAllowed_iff]

/-! ## Lemmas on header maps and on the outbound request -/

theorem Header.Set_apply (h : Header) (key value K : Str) :
    (h.Set key value) K = if K = CanonicalMIMEHeaderKey key then [value] else h K := by
  unfold Header.Set
  rw [Function.update_apply]

theorem copyHeader_apply (src : Header) (keys : List Str)
    (hk : ∀ k ∈ keys, CanonicalMIMEHeaderKey k = k) :
    ∀ (dst : Header) (K : Str),
      copyHeader dst src keys K =
        if K ∈ keys ∧ src.Get K ≠ [] then [src.Get K] else dst K := by
  induction keys with
  | nil => intro dst K; simp [copyHeader]
  | cons k rest ih =>
    intro dst K
    have hrest : ∀ k ∈ rest, CanonicalMIMEHeaderKey k = k :=
      fun k hm => hk k (List.mem_cons_of_mem _ hm)
    have hkk : CanonicalMIMEHeaderKey k = k := hk k (List.mem_cons_self _ _)
    have ih2 := ih hrest
    unfold copyHeader at ih2 ⊢
    rw [List.foldl_cons, ih2]
    by_cases hKr : K ∈ rest ∧ src.Get K ≠ []
    · have : K ∈ k :: rest ∧ src.Get K ≠ [] := ⟨List.mem_cons_of_mem _ hKr.1, hKr.2⟩
      rw [if_pos hKr, if_pos this]
    · rw [if_neg hKr]
      by_cases hKk : K = k
      · subst hKk
        by_cases hg : src.Get K = []
        · have : ¬ (K ∈ K :: rest ∧ src.Get K ≠ []) := fun hh => hh.2 hg
          rw [if_neg this]
          simp [hg]
        · have : K ∈ K :: rest ∧ src.Get K ≠ [] := ⟨List.mem_cons_self _ _, hg⟩
          rw [if_pos this]
          simp [hg, Header.Set_apply, hkk]
      · have : ¬ (K ∈ k :: rest ∧ src.Get K ≠ []) := by
          rintro ⟨hm, hg⟩
          rcases List.mem_cons.mp hm with h1 | h1
          · exact hKk h1
          · exact hKr ⟨h1, hg⟩
        rw [if_neg this]
        by_cases hg : src.Get k = []
        · simp [hg]
        · simp [hg, Header.Set_apply, hkk, hKk]

theorem NewRequestWithContext_some (L : NetURL) (method url : Str) (req : ClientRequest)
    (h : NewRequestWithContext L method url = some req) :
    ∃ u, L.Parse url = some u ∧ req.URL = { u with Host := removeEmptyPort u.Host } ∧
      req.Header = Header.empty ∧ req.Method = (if method = [] then lit "GET" else method) := by
  unfold NewRequestWithContext at h
  cases hp : L.Parse url with
  | none => simp [hp] at h
  | some u =>
    by_cases hv : validMethod (if method = [] then lit "GET" else method) = true
    · simp only [hp, hv, Bool.not_true, Bool.false_eq_true, if_false, Option.some.injEq] at h
      refine ⟨u, rfl, ?_, ?_, ?_⟩ <;> rw [← h]
    · simp [hp, hv] at h

theorem proxy_send (U : Unicode) (L : NetURL) (cfg : config) (upstreamPath : Str)
    (w w1 : ResponseWriter) (r : Request) (req : ClientRequest)
    (h : proxyHandler.request U L cfg upstreamPath w r = Step.send w1 req) :
    (r.Method = lit "POST" ∨ r.Method = lit "GET") ∧ checkAccess U L cfg r = true ∧ w1 = w ∧
      req.Header = proxyHandler.header cfg r Header.empty := by
  unfold proxyHandler.request at h
  by_cases hm : r.Method ≠ lit "POST" ∧ r.Method ≠ lit "GET"
  · simp [hm] at h
  · by_cases ha : checkAccess U L cfg r = true
    · cases hb : cfg.UpstreamBaseURL with
      | none => simp [hm, ha, hb] at h
      | some base =>
        cases hr : NewRequestWithContext L r.Method
            (L.String { base with Path := base.Path ++ upstreamPath }) with
        | none => simp [hm, ha, hb, hr] at h
        | some req0 =>
          obtain ⟨u, _, _, h0, _⟩ := NewRequestWithContext_some L _ _ req0 hr
          simp only [hm, ha, hb, hr, Bool.not_true, Bool.false_eq_true, if_false,
            Step.send.injEq] at h
          refine ⟨by tauto, ha, h.1.symm, ?_⟩
          rw [← h.2, h0]
    · simp [hm, ha] at h

theorem webdav_send (U : Unicode) (L : NetURL) (cfg : config)
    (w w1 : ResponseWriter) (r : Request) (req : ClientRequest)
    (h : webdavProxyHandler.request U L cfg w r = Step.send w1 req) :
    checkAccess U L cfg r = true ∧ w1 = w ∧
      req.Header = webdavProxyHandler.header r Header.empty ∧
      ∃ u, L.Parse (webdavProxyHandler.fullURL (TrimSpace (r.Header.Get (lit "X-WebDAV-URL"))) r)
          = some u ∧ req.URL = { u with Host := removeEmptyPort u.Host } := by
  unfold webdavProxyHandler.request at h
  by_cases hm : r.Method = lit "OPTIONS"
  · simp [hm] at h
  · by_cases ha : checkAccess U L cfg r = true
    · by_cases ht : TrimSpace (r.Header.Get (lit "X-WebDAV-URL")) = []
      · simp [hm, ha, ht] at h
      · cases hp : L.Parse (TrimSpace (r.Header.Get (lit "X-WebDAV-URL"))) with
        | none => simp [hm, ha, ht, hp] at h
        | some parsedURL =>
          by_cases hs : parsedURL.Scheme ≠ lit "http" ∧ parsedURL.Scheme ≠ lit "https"
          · simp [hm, ha, ht, hp, hs] at h
          · cases hr : NewRequestWithContext L r.Method
                (webdavProxyHandler.fullURL (TrimSpace (r.Header.Get (lit "X-WebDAV-URL"))) r) with
            | none => simp [hm, ha, ht, hp, hs, hr] at h
            | some req0 =>
              obtain ⟨u, hu, hurl, h0, _⟩ := NewRequestWithContext_some L _ _ req0 hr
              simp only [hm, ha, ht, hp, hs, hr, Bool.not_true, Bool.false_eq_true, if_false,
                Step.send.injEq] at h
              refine ⟨ha, h.1.symm, ?_, u, hu, ?_⟩
              · rw [← h.2, h0]
              · rw [← h.2]; exact hurl
    · simp [hm, ha] at h

theorem proxy_header_apply (cfg : config) (r : Request) (K : Str) :
    proxyHandler.header cfg r Header.empty K =
      if K = lit "Authorization" then [lit "Bearer " ++ cfg.UpstreamAPIKey]
      else if K = lit "Accept-Encoding" then [lit "identity"]
      else if K ∈ [lit "Content-Type", lit "Accept", lit "User-Agent"] ∧ r.Header.Get K ≠ []
        then [r.Header.Get K]
      else [] := by
  unfold proxyHandler.header
  have c1 : CanonicalMIMEHeaderKey (lit "Authorization") = lit "Authorization" := by decide
  have c2 : CanonicalMIMEHeaderKey (lit "Accept-Encoding") = lit "Accept-Encoding" := by decide
  have c3 : ∀ k ∈ [lit "Content-Type", lit "Accept", lit "User-Agent"],
      CanonicalMIMEHeaderKey k = k := by decide
  rw [Header.Set_apply, Header.Set_apply, copyHeader_apply r.Header _ c3, c1, c2]
  rfl

theorem webdav_header_apply (r : Request) (K : Str) :
    webdavProxyHandler.header r Header.empty K =
      if K = lit "Authorization" then
        (if r.Header.Get (lit "X-WebDAV-Username") ≠ [] then
          [lit "Basic " ++ basicAuth (r.Header.Get (lit "X-WebDAV-Username"))
            (r.Header.Get (lit "X-WebDAV-Password"))]
        else [])
      else if K ∈ [lit "Content-Type", lit "Content-Length", lit "Depth", lit "Destination",
          lit "Overwrite"] ∧ r.Header.Get K ≠ [] then [r.Header.Get K]
      else [] := by
  have c1 : CanonicalMIMEHeaderKey (lit "Authorization") = lit "Authorization" := by decide
  have c3 : ∀ k ∈ [lit "Content-Type", lit "Content-Length", lit "Depth", lit "Destination",
      lit "Overwrite"], CanonicalMIMEHeaderKey k = k := by decide
  have c4 : lit "Authorization" ∉ [lit "Content-Type", lit "Content-Length", lit "Depth",
      lit "Destination", lit "Overwrite"] := by decide
  have hfold : ∀ h : Header, [lit "Content-Type", lit "Content-Length", lit "Depth",
      lit "Destination", lit "Overwrite"].foldl
      (fun h k => if r.Header.Get k ≠ [] then h.Set k (r.Header.Get k) else h) h =
      copyHeader h r.Header [lit "Content-Type", lit "Content-Length", lit "Depth",
        lit "Destination", lit "Overwrite"] := fun _ => rfl
  unfold webdavProxyHandler.header
  simp only [hfold]
  by_cases hu : r.Header.Get (lit "X-WebDAV-Username") = []
  · simp only [hu, ne_eq, not_true_eq_false, if_false]
    rw [copyHeader_apply r.Header _ c3]
    by_cases hK : K = lit "Authorization"
    · subst hK
      simp [c4, Header.empty]
    · simp [hK, Header.empty]
  · simp only [ne_eq, hu, not_false_eq_true, if_true]
    unfold Header.SetBasicAuth
    rw [Header.Set_apply, copyHeader_apply r.Header _ c3, c1]
    rfl

theorem TrimPrefix_append (p rest : Str) : TrimPrefix (p ++ rest) p = rest := by
  unfold TrimPrefix HasPrefix
  have : p.isPrefixOf (p ++ rest) = true := by
    rw [List.isPrefixOf_iff_prefix]
    exact List.prefix_append p rest
  simp [this]

/-! ## C2: the API proxy never forwards client credentials -/

/-- C2. For two inbound requests that the API-proxy handler forwards and that carry the
same `Content-Type`, `Accept` and `User-Agent`, whatever their `Authorization` and other
headers are: the outbound header map holds `Authorization: Bearer <upstream key>`,
`Accept-Encoding: identity`, each of the three allow-listed inbound headers that is
non-empty, and nothing else; and the two outbound header maps are equal. -/
theorem proxy_outbound_headers_isolated (U : Unicode) (L : NetURL) (cfg : config) (upstreamPath : Str)
    (w1 w2 v1 v2 : ResponseWriter) (r1 r2 : Request) (q1 q2 : ClientRequest)
    (h1 : proxyHandler.request U L cfg upstreamPath w1 r1 = Step.send v1 q1)
    (h2 : proxyHandler.request U L cfg upstreamPath w2 r2 = Step.send v2 q2)
    (hsame : ∀ k ∈ [lit "Content-Type", lit "Accept", lit "User-Agent"],
      r1.Header.Get k = r2.Header.Get k) :
    (∀ K : Str, q1.Header K =
      if K = lit "Authorization" then [lit "Bearer " ++ cfg.UpstreamAPIKey]
      else if K = lit "Accept-Encoding" then [lit "identity"]
      else if K ∈ [lit "Content-Type", lit "Accept", lit "User-Agent"] ∧ r1.Header.Get K ≠ []
        then [r1.Header.Get K]
      else []) ∧
    q1.Header = q2.Header := by
  have e1 := (proxy_send U L cfg upstreamPath w1 v1 r1 q1 h1).2.2.2
  have e2 := (proxy_send U L cfg upstreamPath w2 v2 r2 q2 h2).2.2.2
  refine ⟨fun K => by rw [e1]; exact proxy_header_apply cfg r1 K, ?_⟩
  funext K
  rw [e1, e2, proxy_header_apply cfg r1 K, proxy_header_apply cfg r2 K]
  by_cases hK : K ∈ [lit "Content-Type", lit "Accept", lit "User-Agent"]
  · rw [hsame K hK]
  · simp [hK]

/-- Witness of C2: two chat requests that differ in `Authorization` only are both
forwarded, with the upstream key as credential and with equal header maps. -/
theorem proxy_outbound_headers_isolated_witness :
    proxyHandler.request Unicode.latin1 NetURL.plain exampleConfig (lit "/chat/completions") newWriter
        (chatRequest (lit "Bearer stolen")) = Step.send newWriter (chatOutbound (lit "Bearer stolen")) ∧
    proxyHandler.request Unicode.latin1 NetURL.plain exampleConfig (lit "/chat/completions") newWriter
        (chatRequest (lit "Basic dXNlcjpwYXNz")) =
      Step.send newWriter (chatOutbound (lit "Basic dXNlcjpwYXNz")) ∧
    (chatOutbound (lit "Bearer stolen")).Header (lit "Authorization") = [lit "Bearer sk-upstream"] ∧
    (chatOutbound (lit "Bearer stolen")).Header = (chatOutbound (lit "Basic dXNlcjpwYXNz")).Header := by
  have h := proxy_outbound_headers_isolated Unicode.latin1 NetURL.plain exampleConfig (lit "/chat/completions")
    newWriter newWriter newWriter newWriter
    (chatRequest (lit "Bearer stolen")) (chatRequest (lit "Basic dXNlcjpwYXNz"))
    (chatOutbound (lit "Bearer stolen")) (chatOutbound (lit "Basic dXNlcjpwYXNz"))
    rfl rfl (by decide)
  exact ⟨rfl, rfl, (h.1 (lit "Authorization")).trans (by decide), h.2⟩

/-! ## C4: the URL of the WebDAV relay -/

/-- C4. For every request the WebDAV handler forwards, with inbound path
`/webapi/webdav` followed by `rest`, the outbound request is the one made for the URL
string that consists of the trimmed `X-WebDAV-URL` value without its trailing slashes,
then `rest` (`/` when `rest` is empty), then `?` and the raw query when the raw query is
non-empty: the outbound URL is the parse of that string (with an empty port removed from
the host, as `http.NewRequest` does). -/
theorem webdav_outbound_url (U : Unicode) (L : NetURL) (cfg : config) (w w1 : ResponseWriter)
    (r : Request) (req : ClientRequest) (rest : Str)
    (h : webdavProxyHandler.request U L cfg w r = Step.send w1 req)
    (hpath : r.URL.Path = lit "/webapi/webdav" ++ rest) :
    ∃ u, L.Parse
        (TrimRightByte (TrimSpace (r.Header.Get (lit "X-WebDAV-URL"))) 0x2F
          ++ (if rest = [] then lit "/" else rest)
          ++ (if r.URL.RawQuery = [] then [] else lit "?" ++ r.URL.RawQuery)) = some u ∧
      req.URL = { u with Host := removeEmptyPort u.Host } := by
  obtain ⟨_, _, _, u, hu, hreq⟩ := webdav_send U L cfg w w1 r req h
  refine ⟨u, ?_, hreq⟩
  rw [← hu]
  unfold webdavProxyHandler.fullURL
  rw [hpath, TrimPrefix_append]
  by_cases hq : r.URL.RawQuery = []
  · simp [hq]
  · simp [hq]

/-- Witness of C4, the example of the specification: `/webapi/webdav/foo` with base
`http://example.com/dav/` and query `x=1` is relayed to `http://example.com/dav/foo?x=1`. -/
theorem webdav_outbound_url_witness :
    webdavProxyHandler.request Unicode.latin1 NetURL.plain exampleConfig newWriter (davRequest []) =
      Step.send newWriter (davOutbound []) ∧
    (davRequest []).URL.Path = lit "/webapi/webdav" ++ lit "/foo" ∧
    ∃ u, NetURL.plain.Parse (lit "http://example.com/dav/foo?x=1") = some u ∧
      (davOutbound []).URL = { u with Host := removeEmptyPort u.Host } :=
  ⟨rfl, rfl, webdav_outbound_url Unicode.latin1 NetURL.plain exampleConfig newWriter newWriter (davRequest [])
    (davOutbound []) (lit "/foo") rfl rfl⟩

/-! ## C5: the headers of the WebDAV relay -/

/-- C5. For every request the WebDAV handler forwards: the outbound header map holds
under `Authorization` the Basic credential of `X-WebDAV-Username` and
`X-WebDAV-Password` when the user name is non-empty and nothing otherwise, it holds each
of `Content-Type`, `Content-Length`, `Depth`, `Destination`, `Overwrite` that is
non-empty inbound, and nothing else; so it has an `Authorization` exactly when the user
name is non-empty, and a second forwarded request that agrees on these seven inbound
headers, whatever its `Authorization`, gets the same outbound header map. -/
theorem webdav_outbound_headers (U : Unicode) (L : NetURL) (cfg : config) (w w1 w2 v2 : ResponseWriter)
    (r r2 : Request) (req req2 : ClientRequest)
    (h : webdavProxyHandler.request U L cfg w r = Step.send w1 req)
    (h2 : webdavProxyHandler.request U L cfg w2 r2 = Step.send v2 req2)
    (hsame : ∀ k ∈ [lit "Content-Type", lit "Content-Length", lit "Depth", lit "Destination",
      lit "Overwrite", lit "X-WebDAV-Username", lit "X-WebDAV-Password"],
      r.Header.Get k = r2.Header.Get k) :
    (∀ K : Str, req.Header K =
      if K = lit "Authorization" then
        (if r.Header.Get (lit "X-WebDAV-Username") ≠ [] then
          [lit "Basic " ++ basicAuth (r.Header.Get (lit "X-WebDAV-Username"))
            (r.Header.Get (lit "X-WebDAV-Password"))]
        else [])
      else if K ∈ [lit "Content-Type", lit "Content-Length", lit "Depth", lit "Destination",
          lit "Overwrite"] ∧ r.Header.Get K ≠ [] then [r.Header.Get K]
      else []) ∧
    (req.Header (lit "Authorization") ≠ [] ↔ r.Header.Get (lit "X-WebDAV-Username") ≠ []) ∧
    req.Header = req2.Header := by
  have e1 := (webdav_send U L cfg w w1 r req h).2.2.1
  have e2 := (webdav_send U L cfg w2 v2 r2 req2 h2).2.2.1
  refine ⟨fun K => by rw [e1]; exact webdav_header_apply r K, ?_, ?_⟩
  · rw [e1, webdav_header_apply r]
    by_cases hu : r.Header.Get (lit "X-WebDAV-Username") = []
    · simp [hu]
    · simp [hu]
  · funext K
    rw [e1, e2, webdav_header_apply r K, webdav_header_apply r2 K]
    have hu := hsame (lit "X-WebDAV-Username") (by decide)
    have hp := hsame (lit "X-WebDAV-Password") (by decide)
    rw [hu, hp]
    by_cases hK : K ∈ [lit "Content-Type", lit "Content-Length", lit "Depth",
        lit "Destination", lit "Overwrite"]
    · have hKm : K ∈ [lit "Content-Type", lit "Content-Length", lit "Depth", lit "Destination",
          lit "Overwrite", lit "X-WebDAV-Username", lit "X-WebDAV-Password"] := by
        simp only [List.mem_cons] at hK ⊢
        tauto
      rw [hsame K hKm]
    · simp [hK]

/-- Witness of C5: the example request with a user name and a password, and the same
request with an `Authorization` line of its own; both are forwarded with the Basic
credential of `user:pass` and with equal header maps. -/
theorem webdav_outbound_headers_witness :
    webdavProxyHandler.request Unicode.latin1 NetURL.plain exampleConfig newWriter (davRequest davLogin) =
      Step.send newWriter (davOutbound davLogin) ∧
    webdavProxyHandler.request Unicode.latin1 NetURL.plain exampleConfig newWriter
        (davRequest (davLogin ++ [(lit "Authorization", lit "Bearer s3cret")])) =
      Step.send newWriter (davOutbound (davLogin ++ [(lit "Authorization", lit "Bearer s3cret")])) ∧
    (davOutbound davLogin).Header (lit "Authorization") = [lit "Basic dXNlcjpwYXNz"] ∧
    (davOutbound davLogin).Header =
      (davOutbound (davLogin ++ [(lit "Authorization", lit "Bearer s3cret")])).Header := by
  have h := webdav_outbound_headers Unicode.latin1 NetURL.plain exampleConfig newWriter newWriter newWriter
    newWriter (davRequest davLogin)
    (davRequest (davLogin ++ [(lit "Authorization", lit "Bearer s3cret")]))
    (davOutbound davLogin)
    (davOutbound (davLogin ++ [(lit "Authorization", lit "Bearer s3cret")]))
    rfl rfl (by decide)
  exact ⟨rfl, rfl, (h.1 (lit "Authorization")).trans (by decide), h.2.2⟩

/-! ## C8: the outbound Accept-Encoding -/

/-- C8, as the code has it. A request forwarded by the API-proxy handler goes out with
`Accept-Encoding: identity`, whatever the inbound request carried; a request forwarded by
the WebDAV handler goes out with no `Accept-Encoding` header at all, the handler neither
sets one nor copies the inbound one. -/
theorem outbound_accept_encoding (U : Unicode) (L : NetURL) (cfg : config) (upstreamPath : Str)
    (w w1 : ResponseWriter) (r : Request) (req : ClientRequest) :
    (proxyHandler.request U L cfg upstreamPath w r = Step.send w1 req →
      req.Header (lit "Accept-Encoding") = [lit "identity"] ∧
      req.Header.Get (lit "Accept-Encoding") = lit "identity") ∧
    (webdavProxyHandler.request U L cfg w r = Step.send w1 req →
      req.Header (lit "Accept-Encoding") = [] ∧
      req.Header.Get (lit "Accept-Encoding") = []) := by
  have c2 : CanonicalMIMEHeaderKey (lit "Accept-Encoding") = lit "Accept-Encoding" := by decide
  have n1 : lit "Accept-Encoding" ≠ lit "Authorization" := by decide
  have n2 : lit "Accept-Encoding" ∉ [lit "Content-Type", lit "Content-Length", lit "Depth",
      lit "Destination", lit "Overwrite"] := by decide
  constructor
  · intro h
    have e := (proxy_send U L cfg upstreamPath w w1 r req h).2.2.2
    have hv : req.Header (lit "Accept-Encoding") = [lit "identity"] := by
      rw [e, proxy_header_apply]
      simp [n1]
    exact ⟨hv, by unfold Header.Get; rw [c2, hv]⟩
  · intro h
    have e := (webdav_send U L cfg w w1 r req h).2.2.1
    have hv : req.Header (lit "Accept-Encoding") = [] := by
      rw [e, webdav_header_apply]
      simp [n1, n2]
    exact ⟨hv, by unfold Header.Get; rw [c2, hv]⟩

/-- Witness of C8 as amended: a forwarded chat request and the forwarded example request
of the WebDAV relay, both with `Accept-Encoding: gzip` inbound. -/
theorem outbound_accept_encoding_witness :
    (proxyHandler.request Unicode.latin1 NetURL.plain exampleConfig (lit "/chat/completions") newWriter
        (chatRequest (lit "Bearer x")) = Step.send newWriter (chatOutbound (lit "Bearer x")) ∧
      (chatOutbound (lit "Bearer x")).Header (lit "Accept-Encoding") = [lit "identity"]) ∧
    (webdavProxyHandler.request Unicode.latin1 NetURL.plain exampleConfig newWriter (davRequest []) =
        Step.send newWriter (davOutbound []) ∧
      (davOutbound []).Header (lit "Accept-Encoding") = []) :=
  ⟨⟨rfl, ((outbound_accept_encoding Unicode.latin1 NetURL.plain exampleConfig (lit "/chat/completions")
      newWriter newWriter (chatRequest (lit "Bearer x")) (chatOutbound (lit "Bearer x"))).1 rfl).1⟩,
   ⟨rfl, ((outbound_accept_encoding Unicode.latin1 NetURL.plain exampleConfig (lit "/chat/completions")
      newWriter newWriter (davRequest []) (davOutbound [])).2 rfl).1⟩⟩

/-- Counterexample to C8 as stated: the WebDAV handler forwards the example request,
which came with `Accept-Encoding: gzip`, and the outbound request has no
`Accept-Encoding` header, so it is not `identity`. -/
theorem webdav_accept_encoding_not_identity :
    webdavProxyHandler.request Unicode.latin1 NetURL.plain exampleConfig newWriter (davRequest []) =
      Step.send newWriter (davOutbound []) ∧
    (davRequest []).Header.Get (lit "Accept-Encoding") = lit "gzip" ∧
    (davOutbound []).Header (lit "Accept-Encoding") = [] ∧
    (davOutbound []).Header.Get (lit "Accept-Encoding") ≠ lit "identity" :=
  ⟨rfl, by decide, by decide, by decide⟩

/-! ## C3: the gate of the WebDAV relay -/

theorem httpError_status (w : ResponseWriter) (msg : Str) (code : Nat) (hw : w.status = none) :
    (httpError w msg code).status = some code := by
  simp [httpError, ResponseWriter.Write, ResponseWriter.WriteHeader, hw]

/-- C3. For every request to the WebDAV handler whose method is not OPTIONS, on a writer
whose status is not yet written: when `checkAccess` fails the handler replies 401 and
returns before it reads `X-WebDAV-URL`, without an outbound request; when `checkAccess`
succeeds the handler returns with a 400 reply and no outbound request exactly when the
trimmed `X-WebDAV-URL` is empty, or does not parse, or parses to a scheme that is neither
`http` nor `https`. -/
theorem webdav_gate_then_target (U : Unicode) (L : NetURL) (cfg : config) (w : ResponseWriter) (r : Request)
    (hm : r.Method ≠ lit "OPTIONS") (hw : w.status = none) :
    (checkAccess U L cfg r = false →
      webdavProxyHandler.request U L cfg w r = Step.done (httpError w (lit "unauthorized") 401) ∧
      (httpError w (lit "unauthorized") 401).status = some 401) ∧
    (checkAccess U L cfg r = true →
      ((∃ w1, webdavProxyHandler.request U L cfg w r = Step.done w1 ∧ w1.status = some 400) ↔
        (TrimSpace (r.Header.Get (lit "X-WebDAV-URL")) = [] ∨
         L.Parse (TrimSpace (r.Header.Get (lit "X-WebDAV-URL"))) = none ∨
         ∃ u, L.Parse (TrimSpace (r.Header.Get (lit "X-WebDAV-URL"))) = some u ∧
           u.Scheme ≠ lit "http" ∧ u.Scheme ≠ lit "https"))) := by
  constructor
  · intro ha
    exact ⟨by simp [webdavProxyHandler.request, hm, ha], httpError_status w _ 401 hw⟩
  · intro ha
    by_cases ht : TrimSpace (r.Header.Get (lit "X-WebDAV-URL")) = []
    · constructor
      · intro _; exact Or.inl ht
      · intro _
        exact ⟨httpError w (lit "missing X-WebDAV-URL header") 400,
          by simp [webdavProxyHandler.request, hm, ha, ht], httpError_status w _ 400 hw⟩
    · cases hp : L.Parse (TrimSpace (r.Header.Get (lit "X-WebDAV-URL"))) with
      | none =>
        constructor
        · intro _; exact Or.inr (Or.inl rfl)
        · intro _
          exact ⟨httpError w (lit "invalid X-WebDAV-URL") 400,
            by simp [webdavProxyHandler.request, hm, ha, ht, hp], httpError_status w _ 400 hw⟩
      | some parsedURL =>
        by_cases hs : parsedURL.Scheme ≠ lit "http" ∧ parsedURL.Scheme ≠ lit "https"
        · constructor
          · intro _; exact Or.inr (Or.inr ⟨parsedURL, rfl, hs⟩)
          · intro _
            refine ⟨httpError w (lit "X-WebDAV-URL must be http or https") 400, ?_,
              httpError_status w _ 400 hw⟩
            simp only [webdavProxyHandler.request, hm, ha, ht, hp, if_false, Bool.not_true,
              Bool.false_eq_true]
            rw [if_pos hs]
        · constructor
          · rintro ⟨w1, hreq, hst⟩
            exfalso
            unfold webdavProxyHandler.request at hreq
            simp only [hm, ha, ht, hp, if_false, Bool.not_true, Bool.false_eq_true] at hreq
            rw [if_neg hs] at hreq
            cases hr : NewRequestWithContext L r.Method
                (webdavProxyHandler.fullURL (TrimSpace (r.Header.Get (lit "X-WebDAV-URL"))) r) with
            | none =>
              simp only [hr, Step.done.injEq] at hreq
              rw [← hreq, httpError_status w _ 500 hw] at hst
              simp at hst
            | some req0 => simp [hr] at hreq
          · rintro (h1 | h1 | ⟨u, h1, h2⟩)
            · exact absurd h1 ht
            · simp at h1
            · simp only [Option.some.injEq] at h1
              subst h1
              exact absurd h2 hs

/-- Witness of C3: the example request without any access code is answered 401, although
its `X-WebDAV-URL` is a well-formed `http` URL. -/
theorem webdav_gate_then_target_witness :
    davRequestNoCode.Method ≠ lit "OPTIONS" ∧ newWriter.status = none ∧
    checkAccess Unicode.latin1 NetURL.plain exampleConfig davRequestNoCode = false ∧
    webdavProxyHandler.request Unicode.latin1 NetURL.plain exampleConfig newWriter davRequestNoCode =
      Step.done (httpError newWriter (lit "unauthorized") 401) ∧
    (httpError newWriter (lit "unauthorized") 401).status = some 401 :=
  ⟨by decide, rfl, by decide,
    (webdav_gate_then_target Unicode.latin1 NetURL.plain exampleConfig newWriter davRequestNoCode
      (by decide) rfl).1 (by decide)⟩

/-! ## C6: the CORS policy -/

theorem foldEqList_refl (U : Unicode) (l : List Nat) : foldEqList U l l = true := by
  induction l with
  | nil => rfl
  | cons a l ih => simp [foldEqList, foldEq, ih]

theorem EqualFold_refl (U : Unicode) (s : Str) : EqualFold U s s = true := foldEqList_refl U _

theorem isAllowedOrigin_iff (U : Unicode) (allowed : List Str) (origin : Str) :
    isAllowedOrigin U allowed origin = true ↔
      ∃ a ∈ allowed, a = lit "*" ∨ EqualFold U a origin = true := by
  have hloop : ∀ l : List Str, isAllowedOrigin.loop U origin l = true ↔
      ∃ a ∈ l, a = lit "*" ∨ EqualFold U a origin = true := by
    intro l
    induction l with
    | nil => simp [isAllowedOrigin.loop]
    | cons a rest ih =>
      simp only [isAllowedOrigin.loop, List.mem_cons, exists_eq_or_imp, ← ih]
      by_cases h : (decide (a = lit "*") || EqualFold U a origin) = true
      · rw [if_pos h]
        simp only [Bool.or_eq_true, decide_eq_true_eq] at h
        simp [h]
      · rw [if_neg h]
        simp only [Bool.or_eq_true, decide_eq_true_eq] at h
        simp [h]
  unfold isAllowedOrigin
  by_cases h0 : allowed.length = 0
  · have : allowed = [] := List.length_eq_zero.mp h0
    subst this
    simp
  · rw [if_neg h0]
    exact hloop allowed

theorem runesFuel_ascii (s : Str) (hs : ∀ c ∈ s, c.val < 0x80) :
    ∀ fuel, s.length ≤ fuel → runesFuel fuel s = s.map (fun c => c.val) := by
  induction s with
  | nil => intro fuel _; cases fuel <;> rfl
  | cons c rest ih =>
    intro fuel hf
    cases fuel with
    | zero => simp at hf
    | succ fuel =>
      have hc : c.val < 0x80 := hs c (List.mem_cons_self _ _)
      have hd : decodeRune (c :: rest) = (c.val, 1) := by
        unfold decodeRune
        simp [hc]
      simp only [runesFuel, hd, List.drop_succ_cons, List.drop_zero, List.map_cons]
      rw [ih (fun c hm => hs c (List.mem_cons_of_mem _ hm)) fuel
        (by simp only [List.length_cons] at hf; omega)]

theorem runes_ascii (s : Str) (hs : ∀ c ∈ s, c.val < 0x80) :
    runes s = s.map (fun c => c.val) :=
  runesFuel_ascii s hs s.length (Nat.le_refl _)

theorem foldEq_ascii (U : Unicode) (a b : Byte) (ha : a.val < 0x80) (hb : b.val < 0x80) :
    foldEq U a.val b.val = asciiFoldEq a b := by
  apply Bool.eq_iff_iff.mpr
  unfold foldEq asciiFoldEq
  rcases Nat.le_total a.val b.val with h | h
  · simp only [min_eq_left h, max_eq_right h]
    by_cases he : b.val = a.val
    · have hab : a = b := Fin.ext he.symm
      subst hab
      simp
    · have hne : ¬ a = b := fun e => he (by rw [e])
      simp only [he, if_false, hb, if_true, Bool.and_eq_true, decide_eq_true_eq, Bool.or_eq_true,
        beq_iff_eq, hne, false_or]
      omega
  · simp only [min_eq_right h, max_eq_left h]
    by_cases he : a.val = b.val
    · have hab : a = b := Fin.ext he
      subst hab
      simp
    · have hne : ¬ a = b := fun e => he (by rw [e])
      simp only [he, if_false, ha, if_true, Bool.and_eq_true, decide_eq_true_eq, Bool.or_eq_true,
        beq_iff_eq, hne, false_or]
      omega

theorem foldEqList_ascii (U : Unicode) (s : Str) :
    ∀ t : Str, (∀ c ∈ s, c.val < 0x80) → (∀ c ∈ t, c.val < 0x80) →
      foldEqList U (s.map (fun c => c.val)) (t.map (fun c => c.val)) = equalFoldASCII s t := by
  induction s with
  | nil =>
    intro t _ _
    cases t <;> rfl
  | cons a s ih =>
    intro t hs ht
    cases t with
    | nil => rfl
    | cons b t =>
      have hs2 : ∀ c ∈ s, c.val < 0x80 := fun c hm => hs c (List.mem_cons_of_mem _ hm)
      simp only [List.map_cons, foldEqList, equalFoldASCII]
      rw [foldEq_ascii U a b (hs a (List.mem_cons_self _ _)) (ht b (List.mem_cons_self _ _)),
        ih t hs2 (fun c hm => ht c (List.mem_cons_of_mem _ hm))]

theorem EqualFold_ascii (U : Unicode) (s t : Str)
    (hs : ∀ c ∈ s, c.val < 0x80) (ht : ∀ c ∈ t, c.val < 0x80) :
    EqualFold U s t = equalFoldASCII s t := by
  unfold EqualFold
  rw [runes_ascii s hs, runes_ascii t ht]
  exact foldEqList_ascii U s t hs ht

/-- C6, as the code has it. For every table of package unicode, every allow-list and
every request with a non-empty `Origin` value O: when O equals some allow-list entry under
simple case folding (`strings.EqualFold`) or the allow-list holds the literal `*`,
`withCORS` sets the five CORS headers (`Access-Control-Allow-Origin` echoing O, `Vary`,
`Allow-Credentials`, `Allow-Headers`, `Allow-Methods`) before it answers or passes the
request on; otherwise it adds no header.  An exact match is a match under case folding,
and between an ASCII entry and an ASCII origin the match under case folding is equality
up to the case of the letters, whatever the table. -/
theorem cors_headers_iff_fold_match (U : Unicode) (cfg : config) (next : Handler)
    (w : ResponseWriter) (r : Request) (ho : r.Header.Get (lit "Origin") ≠ []) :
    ((∃ a ∈ cfg.AllowedOrigins, a = lit "*" ∨ EqualFold U a (r.Header.Get (lit "Origin")) = true) →
      withCORS U cfg next w r =
        if r.Method = lit "OPTIONS" then
          some (ResponseWriter.WriteHeader
            { w with header := corsHeaders w.header (r.Header.Get (lit "Origin")) } 204)
        else next { w with header := corsHeaders w.header (r.Header.Get (lit "Origin")) } r) ∧
    ((¬ ∃ a ∈ cfg.AllowedOrigins, a = lit "*" ∨ EqualFold U a (r.Header.Get (lit "Origin")) = true) →
      withCORS U cfg next w r =
        if r.Method = lit "OPTIONS" then some (w.WriteHeader 204) else next w r) ∧
    (r.Header.Get (lit "Origin") ∈ cfg.AllowedOrigins ∨ lit "*" ∈ cfg.AllowedOrigins →
      ∃ a ∈ cfg.AllowedOrigins, a = lit "*" ∨ EqualFold U a (r.Header.Get (lit "Origin")) = true) ∧
    ((corsHeaders w.header (r.Header.Get (lit "Origin"))).Get (lit "Access-Control-Allow-Origin")
        = r.Header.Get (lit "Origin") ∧
      (corsHeaders w.header (r.Header.Get (lit "Origin"))).Get (lit "Vary") = lit "Origin" ∧
      (corsHeaders w.header (r.Header.Get (lit "Origin"))).Get
        (lit "Access-Control-Allow-Credentials") = lit "true" ∧
      (corsHeaders w.header (r.Header.Get (lit "Origin"))).Get
        (lit "Access-Control-Allow-Headers") ≠ [] ∧
      (corsHeaders w.header (r.Header.Get (lit "Origin"))).Get
        (lit "Access-Control-Allow-Methods") ≠ []) ∧
    (∀ a : Str, (∀ c ∈ a, c.val < 0x80) → (∀ c ∈ r.Header.Get (lit "Origin"), c.val < 0x80) →
      EqualFold U a (r.Header.Get (lit "Origin"))
        = equalFoldASCII a (r.Header.Get (lit "Origin"))) := by
  refine ⟨?_, ?_, ?_, ?_, fun a ha hO => EqualFold_ascii U a _ ha hO⟩
  · intro hex
    have ha := (isAllowedOrigin_iff U _ _).mpr hex
    unfold withCORS
    simp [ho, ha]
  · intro hex
    have ha : ¬ isAllowedOrigin U cfg.AllowedOrigins (r.Header.Get (lit "Origin")) = true :=
      fun h => hex ((isAllowedOrigin_iff U _ _).mp h)
    unfold withCORS
    simp [ha]
  · rintro (h | h)
    · exact ⟨_, h, Or.inr (EqualFold_refl U _)⟩
    · exact ⟨_, h, Or.inl rfl⟩
  · have c1 : CanonicalMIMEHeaderKey (lit "Access-Control-Allow-Origin")
        = lit "Access-Control-Allow-Origin" := by decide
    have c2 : CanonicalMIMEHeaderKey (lit "Vary") = lit "Vary" := by decide
    have c3 : CanonicalMIMEHeaderKey (lit "Access-Control-Allow-Credentials")
        = lit "Access-Control-Allow-Credentials" := by decide
    have c4 : CanonicalMIMEHeaderKey (lit "Access-Control-Allow-Headers")
        = lit "Access-Control-Allow-Headers" := by decide
    have c5 : CanonicalMIMEHeaderKey (lit "Access-Control-Allow-Methods")
        = lit "Access-Control-Allow-Methods" := by decide
    have n12 : lit "Access-Control-Allow-Origin" ≠ lit "Vary" := by decide
    have n13 : lit "Access-Control-Allow-Origin" ≠ lit "Access-Control-Allow-Credentials" := by
      decide
    have n14 : lit "Access-Control-Allow-Origin" ≠ lit "Access-Control-Allow-Headers" := by
      decide
    have n15 : lit "Access-Control-Allow-Origin" ≠ lit "Access-Control-Allow-Methods" := by
      decide
    have n23 : lit "Vary" ≠ lit "Access-Control-Allow-Credentials" := by decide
    have n24 : lit "Vary" ≠ lit "Access-Control-Allow-Headers" := by decide
    have n25 : lit "Vary" ≠ lit "Access-Control-Allow-Methods" := by decide
    have n34 : lit "Access-Control-Allow-Credentials" ≠ lit "Access-Control-Allow-Headers" := by
      decide
    have n35 : lit "Access-Control-Allow-Credentials" ≠ lit "Access-Control-Allow-Methods" := by
      decide
    have n45 : lit "Access-Control-Allow-Headers" ≠ lit "Access-Control-Allow-Methods" := by
      decide
    have e4 : lit "Authorization, Content-Type, X-Access-Code, X-WebDAV-URL, X-WebDAV-Username, X-WebDAV-Password, Depth, Destination, Overwrite" ≠ ([] : Str) := by
      decide
    have e5 : lit "GET, POST, PUT, DELETE, PROPFIND, MKCOL, COPY, MOVE, OPTIONS" ≠ ([] : Str) := by
      decide
    unfold corsHeaders Header.Get
    simp only [Header.Set_apply, c1, c2, c3, c4, c5]
    simp [n12, n13, n14, n15, n23, n24, n25, n34, n35, n45, e4, e5]

/-- Witness of C6 as amended: the origin `https://example.com` against the allow-list
`https://Example.com`, on a GET that is passed on, gets the CORS headers under every
table. -/
theorem cors_headers_iff_fold_match_witness :
    (originRequest (lit "GET") (lit "/healthz")).Header.Get (lit "Origin") ≠ [] ∧
    equalFoldASCII (lit "https://Example.com") (lit "https://example.com") = true ∧
    ∀ U : Unicode,
      withCORS U exampleConfig (fun w _ => some w) newWriter
          (originRequest (lit "GET") (lit "/healthz")) =
        some { newWriter with
          header := corsHeaders newWriter.header (lit "https://example.com") } :=
  ⟨by decide, by decide, fun U =>
    (cors_headers_iff_fold_match U exampleConfig (fun w _ => some w) newWriter
      (originRequest (lit "GET") (lit "/healthz")) (by decide)).1
      ⟨lit "https://Example.com", by decide, Or.inr rfl⟩⟩

/-- Counterexample to C6 as stated: with the allow-list `https://Example.com` (no
wildcard) the origin `https://example.com` matches no entry exactly, and `withCORS`
emits the CORS headers for it all the same, whatever the table of package unicode
holds (the two strings are ASCII). -/
theorem cors_emitted_without_exact_match :
    (originRequest (lit "GET") (lit "/healthz")).Header.Get (lit "Origin")
      = lit "https://example.com" ∧
    exampleConfig.AllowedOrigins = [lit "https://Example.com"] ∧
    lit "https://example.com" ∉ exampleConfig.AllowedOrigins ∧
    lit "*" ∉ exampleConfig.AllowedOrigins ∧
    ∀ U : Unicode,
      (withCORS U exampleConfig (fun w _ => some w) newWriter
          (originRequest (lit "GET") (lit "/healthz"))).map
        (fun w => (w.header (lit "Access-Control-Allow-Origin"), w.header (lit "Vary"),
          w.header (lit "Access-Control-Allow-Credentials")))
        = some ([lit "https://example.com"], [lit "Origin"], [lit "true"]) :=
  ⟨by decide, rfl, by decide, by decide, fun _ => rfl⟩

/-! ## C7: preflight requests -/

/-- C7. For every configuration and every request whose method is OPTIONS, whatever its
path, credentials and origin, the handler built by `withCORS` on a fresh writer replies
204 and sends no body; the reply is the same for every wrapped handler and for every
configuration with the same allow-list of origins, so neither the wrapped handler nor the
access codes take part in it.  The WebDAV handler itself answers OPTIONS with 204 as its
first step, before `checkAccess`. -/
theorem options_always_no_content (U : Unicode) (L : NetURL) (cfg : config) (next : Handler)
    (w : ResponseWriter) (r : Request)
    (hm : r.Method = lit "OPTIONS") (hw : w.status = none) :
    (∃ w1, withCORS U cfg next w r = some w1 ∧ w1.status = some 204 ∧ w1.out = w.out ∧
      ∀ (cfg2 : config) (next2 : Handler), cfg2.AllowedOrigins = cfg.AllowedOrigins →
        withCORS U cfg2 next2 w r = some w1) ∧
    webdavProxyHandler.request U L cfg w r = Step.done (w.WriteHeader 204) := by
  constructor
  · by_cases hc : r.Header.Get (lit "Origin") ≠ [] ∧
        isAllowedOrigin U cfg.AllowedOrigins (r.Header.Get (lit "Origin")) = true
    · refine ⟨_, by unfold withCORS; simp only [hm, if_true, if_pos hc]; rfl, ?_, ?_, ?_⟩
      · simp [ResponseWriter.WriteHeader, hw]
      · simp [ResponseWriter.WriteHeader, hw]
      · intro cfg2 next2 h2
        unfold withCORS
        simp only [hm, if_true, h2, if_pos hc]
    · refine ⟨_, by unfold withCORS; simp only [hm, if_true, if_neg hc]; rfl, ?_, ?_, ?_⟩
      · simp [ResponseWriter.WriteHeader, hw]
      · simp [ResponseWriter.WriteHeader, hw]
      · intro cfg2 next2 h2
        unfold withCORS
        simp only [hm, if_true, h2, if_neg hc]
  · simp [webdavProxyHandler.request, hm]

/-- Witness of C7: a preflight to the WebDAV route without any credential, under a
configuration that allows no origin, in front of a handler that would panic. -/
theorem options_always_no_content_witness :
    ∃ w1, withCORS Unicode.latin1 { exampleConfig with AllowedOrigins := [] } (fun _ _ => none) newWriter
        (originRequest (lit "OPTIONS") (lit "/webapi/webdav/foo")) = some w1 ∧
      w1.status = some 204 ∧ w1.out = [] ∧
      w1.header (lit "Access-Control-Allow-Origin") = [] := by
  obtain ⟨w1, h1, h2, h3, _⟩ := (options_always_no_content Unicode.latin1 NetURL.plain
    { exampleConfig with AllowedOrigins := [] } (fun _ _ => none) newWriter
    (originRequest (lit "OPTIONS") (lit "/webapi/webdav/foo")) rfl rfl).1
  refine ⟨w1, h1, h2, h3, ?_⟩
  have h4 : withCORS Unicode.latin1 { exampleConfig with AllowedOrigins := [] } (fun _ _ => none) newWriter
      (originRequest (lit "OPTIONS") (lit "/webapi/webdav/foo")) =
      some (newWriter.WriteHeader 204) := rfl
  rw [h4] at h1
  simp only [Option.some.injEq] at h1
  rw [← h1]
  rfl

/-! ## C9: the relay of the response headers -/

theorem foldl_Add_apply (k : Str) (vv : List Str) :
    ∀ (h : Header) (K : Str),
      (vv.foldl (fun h v => h.Add k v) h) K =
        if K = CanonicalMIMEHeaderKey k then h K ++ vv else h K := by
  induction vv with
  | nil => intro h K; simp
  | cons v rest ih =>
    intro h K
    rw [List.foldl_cons, ih]
    unfold Header.Add
    by_cases hK : K = CanonicalMIMEHeaderKey k
    · subst hK
      simp
    · simp [hK]

theorem proxy_copyHeaders_apply (U : Unicode) (l : List (Str × List Str)) :
    ∀ (h : Header) (K : Str),
      proxyHandler.copyHeaders U h l K =
        h K ++ (l.filter (fun kv => decide (CanonicalMIMEHeaderKey kv.1 = K)
                  && !EqualFold U kv.1 (lit "Content-Encoding"))).flatMap (fun kv => kv.2) := by
  induction l with
  | nil => intro h K; simp [proxyHandler.copyHeaders]
  | cons kv rest ih =>
    intro h K
    obtain ⟨k, vv⟩ := kv
    unfold proxyHandler.copyHeaders
    by_cases hE : EqualFold U k (lit "Content-Encoding") = true
    · rw [if_pos hE, ih]
      simp [List.filter_cons, hE]
    · rw [if_neg hE, ih, foldl_Add_apply]
      simp only [Bool.not_eq_true] at hE
      by_cases hK : K = CanonicalMIMEHeaderKey k
      · subst hK
        simp [List.filter_cons, hE]
      · have hK2 : ¬ CanonicalMIMEHeaderKey k = K := fun e => hK e.symm
        simp [List.filter_cons, hK, hK2]

theorem webdav_copyHeaders_apply (l : List (Str × List Str)) :
    ∀ (h : Header) (K : Str),
      webdavProxyHandler.copyHeaders h l K =
        h K ++ (l.filter (fun kv => decide (CanonicalMIMEHeaderKey kv.1 = K))).flatMap
          (fun kv => kv.2) := by
  induction l with
  | nil => intro h K; simp [webdavProxyHandler.copyHeaders]
  | cons kv rest ih =>
    intro h K
    obtain ⟨k, vv⟩ := kv
    unfold webdavProxyHandler.copyHeaders
    rw [ih, foldl_Add_apply]
    by_cases hK : K = CanonicalMIMEHeaderKey k
    · subst hK
      simp [List.filter_cons]
    · have hK2 : ¬ CanonicalMIMEHeaderKey k = K := fun e => hK e.symm
      simp [List.filter_cons, hK, hK2]

theorem WriteHeader_header (w : ResponseWriter) (code : Nat) :
    (w.WriteHeader code).header = w.header := by
  unfold ResponseWriter.WriteHeader
  cases w.status <;> rfl

theorem Write_header (w : ResponseWriter) (p : Str) : (w.Write p).1.header = w.header := by
  unfold ResponseWriter.Write
  exact WriteHeader_header w 200

theorem Flush_header (w : ResponseWriter) : w.Flush.header = w.header := by
  unfold ResponseWriter.Flush
  exact WriteHeader_header w 200

theorem ioCopy_header (write : ResponseWriter → Str → ResponseWriter × (Int × Option Str))
    (hwrite : ∀ s p, (write s p).1.header = s.header) (chunks : List Str) :
    ∀ s : ResponseWriter, (ioCopy write s chunks).1.header = s.header := by
  induction chunks with
  | nil => intro s; rfl
  | cons p rest ih =>
    intro s
    unfold ioCopy
    have h1 := hwrite s p
    rcases hres : write s p with ⟨s1, n, err⟩
    rw [hres] at h1
    simp only
    split_ifs
    · exact h1
    · exact h1
    · exact h1
    · rw [ih s1]; exact h1

theorem flushWriter_Write_header (fl : Option (Flusher ResponseWriter))
    (hfl : ∀ f, fl = some f → ∀ s, (f.Flush s).header = s.header) (s : ResponseWriter) (p : Str) :
    ((flushWriter.Write { w := ResponseWriter.asWriter, fl := fl } s p).1).header = s.header := by
  unfold flushWriter.Write ResponseWriter.asWriter
  cases fl with
  | none => exact Write_header s p
  | some f =>
    simp only
    rw [hfl f rfl]
    exact Write_header s p

theorem proxy_relay_header (U : Unicode) (w : ResponseWriter) (resp : Response) :
    (proxyHandler.relay U w resp).header =
      ((proxyHandler.copyHeaders U w.header resp.Header).Set (lit "Cache-Control")
        (lit "no-cache")).Set (lit "X-Accel-Buffering") (lit "no") := by
  unfold proxyHandler.relay
  simp only
  rw [ioCopy_header _ _ resp.Body, WriteHeader_header]
  intro s p
  apply flushWriter_Write_header
  intro f hf s
  unfold ResponseWriter.asFlusher at hf
  split at hf
  · simp only [Option.some.injEq] at hf
    rw [← hf]
    exact Flush_header s
  · simp at hf

theorem webdav_relay_header (w : ResponseWriter) (resp : Response) :
    (webdavProxyHandler.relay w resp).header =
      webdavProxyHandler.copyHeaders w.header resp.Header := by
  unfold webdavProxyHandler.relay
  simp only
  rw [ioCopy_header _ Write_header resp.Body, WriteHeader_header]

theorem validHeaderFieldByte_ascii (c : Byte) (h : validHeaderFieldByte c = true) :
    c.val < 0x80 := by
  unfold validHeaderFieldByte at h
  simp only [Bool.or_eq_true, Bool.and_eq_true, decide_eq_true_eq, List.contains_eq_any_beq,
    List.any_cons, List.any_nil, Bool.or_false, beq_iff_eq] at h
  omega

theorem canonicalByte_fold (U : Unicode) (upper : Bool) (c : Byte) (hc : c.val < 0x80) :
    foldEq U c.val (canonicalByte upper c).val = true ∧ (canonicalByte upper c).val < 0x80 := by
  unfold canonicalByte
  split_ifs with h1 h2
  · simp only [Bool.and_eq_true, decide_eq_true_eq] at h1
    have hb : (byte (c.val - 0x20)).val = c.val - 0x20 := by
      simp only [byte]; omega
    rw [hb]
    refine ⟨?_, by omega⟩
    unfold foldEq
    have hmin : min c.val (c.val - 0x20) = c.val - 0x20 := min_eq_right (by omega)
    have hmax : max c.val (c.val - 0x20) = c.val := max_eq_left (by omega)
    have hne : ¬ c.val = c.val - 0x20 := by omega
    simp only [hmin, hmax, hne, if_false, hc, if_true, Bool.and_eq_true, decide_eq_true_eq]
    omega
  · simp only [Bool.and_eq_true, decide_eq_true_eq] at h2
    have hb : (byte (c.val + 0x20)).val = c.val + 0x20 := by
      simp only [byte]; omega
    rw [hb]
    refine ⟨?_, by omega⟩
    unfold foldEq
    have hmin : min c.val (c.val + 0x20) = c.val := min_eq_left (by omega)
    have hmax : max c.val (c.val + 0x20) = c.val + 0x20 := max_eq_right (by omega)
    have hne : ¬ c.val + 0x20 = c.val := by omega
    have hlt : c.val + 0x20 < 0x80 := by omega
    simp only [hmin, hmax, hne, if_false, hlt, if_true, Bool.and_eq_true, decide_eq_true_eq]
    exact ⟨⟨h2.1.2, h2.2⟩, trivial⟩
  · exact ⟨by simp [foldEq], hc⟩

theorem canonicalLoop_fold (U : Unicode) (s : Str) (hs : ∀ c ∈ s, c.val < 0x80) :
    ∀ upper : Bool,
      foldEqList U (s.map (fun c => c.val)) ((canonicalLoop upper s).map (fun c => c.val)) = true ∧
      ∀ c ∈ canonicalLoop upper s, c.val < 0x80 := by
  induction s with
  | nil => intro upper; simp [canonicalLoop, foldEqList]
  | cons c rest ih =>
    intro upper
    have hc : c.val < 0x80 := hs c (List.mem_cons_self _ _)
    have hrest := ih (fun c hm => hs c (List.mem_cons_of_mem _ hm))
      ((canonicalByte upper c).val == 0x2D)
    have hk := canonicalByte_fold U upper c hc
    simp only [canonicalLoop, List.map_cons, foldEqList, List.mem_cons, Bool.and_eq_true,
      forall_eq_or_imp]
    exact ⟨⟨hk.1, hrest.1⟩, hk.2, hrest.2⟩

theorem EqualFold_canonical (U : Unicode) (k : Str) : EqualFold U k (CanonicalMIMEHeaderKey k) = true := by
  unfold CanonicalMIMEHeaderKey
  by_cases hv : k.all validHeaderFieldByte = true
  · rw [if_pos hv]
    have hs : ∀ c ∈ k, c.val < 0x80 := by
      intro c hm
      exact validHeaderFieldByte_ascii c (List.all_eq_true.mp hv c hm)
    obtain ⟨h1, h2⟩ := canonicalLoop_fold U k hs true
    unfold EqualFold
    rw [runes_ascii k hs, runes_ascii _ h2]
    exact h1
  · rw [if_neg hv]
    exact EqualFold_refl U k

/-- C9, as the code has it. On the API-proxy route the client header map after the relay
holds, under every key other than `Cache-Control` and `X-Accel-Buffering`, what it held
before followed by all values of the upstream headers with that canonical key, except
those of an upstream key that folds to `Content-Encoding`; nothing is added under
`Content-Encoding`; `Cache-Control` and `X-Accel-Buffering` are replaced by `no-cache`
and `no`.  On the WebDAV route the client header map holds, under every key, what it held
before followed by all values of the upstream headers with that canonical key,
`Content-Encoding` included. -/
theorem relay_response_headers (U : Unicode) (w : ResponseWriter) (resp : Response) (K : Str) :
    ((proxyHandler.relay U w resp).header K =
      if K = lit "X-Accel-Buffering" then [lit "no"]
      else if K = lit "Cache-Control" then [lit "no-cache"]
      else w.header K ++
        (resp.Header.filter (fun kv => decide (CanonicalMIMEHeaderKey kv.1 = K)
          && !EqualFold U kv.1 (lit "Content-Encoding"))).flatMap (fun kv => kv.2)) ∧
    (proxyHandler.relay U w resp).header (lit "Content-Encoding")
      = w.header (lit "Content-Encoding") ∧
    ((webdavProxyHandler.relay w resp).header K =
      w.header K ++
        (resp.Header.filter (fun kv => decide (CanonicalMIMEHeaderKey kv.1 = K))).flatMap
          (fun kv => kv.2)) := by
  have c1 : CanonicalMIMEHeaderKey (lit "Cache-Control") = lit "Cache-Control" := by decide
  have c2 : CanonicalMIMEHeaderKey (lit "X-Accel-Buffering") = lit "X-Accel-Buffering" := by
    decide
  have n1 : lit "Content-Encoding" ≠ lit "X-Accel-Buffering" := by decide
  have n2 : lit "Content-Encoding" ≠ lit "Cache-Control" := by decide
  have hall : ∀ K : Str, (proxyHandler.relay U w resp).header K =
      if K = lit "X-Accel-Buffering" then [lit "no"]
      else if K = lit "Cache-Control" then [lit "no-cache"]
      else w.header K ++
        (resp.Header.filter (fun kv => decide (CanonicalMIMEHeaderKey kv.1 = K)
          && !EqualFold U kv.1 (lit "Content-Encoding"))).flatMap (fun kv => kv.2) := by
    intro K
    rw [proxy_relay_header U, Header.Set_apply, Header.Set_apply, proxy_copyHeaders_apply, c1, c2]
  refine ⟨hall K, ?_, ?_⟩
  · rw [hall, if_neg n1, if_neg n2]
    have hnil : resp.Header.filter (fun kv =>
        decide (CanonicalMIMEHeaderKey kv.1 = lit "Content-Encoding")
          && !EqualFold U kv.1 (lit "Content-Encoding")) = [] := by
      rw [List.filter_eq_nil_iff]
      intro kv _
      simp only [Bool.and_eq_true, decide_eq_true_eq, Bool.not_eq_true', not_and,
        Bool.not_eq_false]
      intro hc
      have := EqualFold_canonical U kv.1
      rw [hc] at this
      exact this
    rw [hnil]
    simp
  · rw [webdav_relay_header, webdav_copyHeaders_apply]

/-- Counterexample to C9 as stated: from an upstream response with
`Content-Encoding: br` and `Cache-Control: max-age=60` the WebDAV relay passes
`Content-Encoding: br` on to the client, and the API-proxy relay gives the client
`Cache-Control: no-cache` in place of the upstream value. -/
theorem relay_keeps_encoding_and_replaces_cache_control :
    (webdavProxyHandler.relay newWriter encodedResponse).header (lit "Content-Encoding")
      = [lit "br"] ∧
    (proxyHandler.relay Unicode.latin1 newWriter encodedResponse).header (lit "Cache-Control")
      = [lit "no-cache"] := by
  refine ⟨by decide, by decide⟩

/-! ## C10: one flush after every write -/

theorem writeChunks_out (ps : List Str) :
    ∀ s : ResponseWriter,
      (writeChunks { w := ResponseWriter.asWriter, fl := some ⟨ResponseWriter.Flush⟩ } s ps).1.out
        = s.out ++ ps.flatMap (fun p => [Event.write p, Event.flush]) ∧
      (writeChunks { w := ResponseWriter.asWriter, fl := some ⟨ResponseWriter.Flush⟩ } s ps).2.length
        = ps.length := by
  induction ps with
  | nil => intro s; simp [writeChunks]
  | cons p rest ih =>
    intro s
    have h1 := ih ((flushWriter.Write
      { w := ResponseWriter.asWriter, fl := some ⟨ResponseWriter.Flush⟩ } s p).1)
    simp only [writeChunks, List.flatMap_cons, List.length_cons]
    refine ⟨?_, by rw [h1.2]⟩
    rw [h1.1]
    obtain ⟨hd, st, out, conn, fl⟩ := s
    cases st <;>
      simp [flushWriter.Write, ResponseWriter.asWriter, ResponseWriter.Write,
        ResponseWriter.Flush, ResponseWriter.WriteHeader]

/-- C10. For every sequence of chunks written through the flushing writer of the
API-proxy relay, on a response writer that is a flusher and whatever the connection
returns to each write (an error included): the connection sees, after what it had seen
before, each chunk followed at once by one flush, in the order of the writes, so N writes
and N flushes; there are N results; and every single `Write` of the flushing writer
returns the byte count and error of the underlying write and leaves the state of that
write, flushed. -/
theorem flushWriter_flushes_every_write (w : ResponseWriter) (ps : List Str)
    (hf : w.flusher = true) :
    (writeChunks { w := ResponseWriter.asWriter, fl := w.asFlusher } w ps).1.out
      = w.out ++ ps.flatMap (fun p => [Event.write p, Event.flush]) ∧
    (writeChunks { w := ResponseWriter.asWriter, fl := w.asFlusher } w ps).2.length = ps.length ∧
    ∀ (s : ResponseWriter) (p : Str),
      (flushWriter.Write { w := ResponseWriter.asWriter, fl := w.asFlusher } s p).2
        = (s.Write p).2 ∧
      (flushWriter.Write { w := ResponseWriter.asWriter, fl := w.asFlusher } s p).1
        = (s.Write p).1.Flush := by
  have hfl : w.asFlusher = some ⟨ResponseWriter.Flush⟩ := by
    unfold ResponseWriter.asFlusher
    rw [if_pos hf]
  rw [hfl]
  exact ⟨(writeChunks_out ps w).1, (writeChunks_out ps w).2, fun s p => ⟨rfl, rfl⟩⟩

/-- Witness of C10: two chunks on a connection whose every write fails. -/
theorem flushWriter_flushes_every_write_witness :
    brokenWriter.flusher = true ∧
    (writeChunks { w := ResponseWriter.asWriter, fl := brokenWriter.asFlusher } brokenWriter
        [lit "a", lit "b"]).1.out
      = [Event.write (lit "a"), Event.flush, Event.write (lit "b"), Event.flush] ∧
    (writeChunks { w := ResponseWriter.asWriter, fl := brokenWriter.asFlusher } brokenWriter
        [lit "a", lit "b"]).2
      = [(0, some (lit "broken pipe")), (0, some (lit "broken pipe"))] :=
  ⟨rfl, (flushWriter_flushes_every_write brokenWriter [lit "a", lit "b"] rfl).1, by decide⟩

end Gateway
